import Mathlib

/-!
# mongoose-findorcreate: a shallow embedding of `lib/findorcreate.js`

The module exports one plugin that installs a static `findOrCreate` on a schema.
This file embeds

* the JavaScript values the plugin inspects (`JsVal`),
* `isObject` and `sanitizeMongoKeys` (source lines 60-81),
* the collaborators the plugin calls on the model and on documents
  (`findOne`, `new this(..)`, `doc[field]`, `doc.set`, `doc.isModified`, `doc.save`),
  as a record of functions `Collection`,
* the body of `findOrCreate` (source lines 84-152) as a function that returns the
  sequence of observable operations (`Event`) of one call,

and proves properties of them.

Modelling conventions.

* An object is its list of enumerable properties in `for .. in` order; a well-formed
  object has no repeated key (`keysNodup`). A plain object (`obj`) has own properties
  only; an own property named `__proto__` is what `JSON.parse` or a computed key
  produces.
* An assignment `target[key] = value` to an object under construction goes through
  the inherited setter when the key is `__proto__` (`assignKey`): no own property is
  added, and an object or `null` value becomes the prototype of the target.
* The call stack is bounded: `sanitizeChecked` takes the number of nested calls of
  `sanitizeMongoKeys` that the stack allows and fails with a `RangeError` beyond it.
  `sanitizeMongoKeys` itself is the value that the function returns when it returns.
* Numbers are integers; `NaN` and fractions are not modelled.
* An object of a class (`inst`) is taken to hold data properties only: no accessor
  and nothing read-only.
* Promises are modelled by the way they settle (`Settled`): resolved with a value or
  rejected with a reason. The caller's callback is a recorder: invoking it adds an
  event and does not throw.
* The synchronous collaborators (`new this(..)`, `doc[field]`, `doc.set`,
  `doc.isModified`) are total functions: they return and do not throw.
* A run is the list of operations of one call in the order they happen; a rejection
  that no handler receives is recorded as `unhandledRejection`.
-/

namespace FindOrCreate

/-! ## JavaScript values -/

/-- JavaScript values, as far as the plugin can tell them apart. `obj` is a plain
object (its prototype is `Object.prototype`) with its own enumerable properties;
`inst` is any other non-array, non-date object (a class instance, an `ObjectId`, a
regular expression, an object whose prototype is `null` or was replaced, ...) with
the enumerable properties that `for .. in` visits on it, own ones first, then
inherited ones. -/
inductive JsVal where
  | undefined
  | null
  | bool (b : Bool)
  | num (n : Int)
  | str (s : String)
  | date (t : Int)
  | func (id : Nat)
  | arr (xs : List JsVal)
  | obj (ps : List (String × JsVal))
  | inst (ps : List (String × JsVal))
  deriving Repr, Inhabited

/-- A list of properties. -/
abbrev Props := List (String × JsVal)

/-- The test `typeof v === "object"`. -/
def typeofObject : JsVal → Bool
  | .null => true
  | .date _ => true
  | .arr _ => true
  | .obj _ => true
  | .inst _ => true
  | _ => false

/-- The test `typeof v === "function"`. -/
def isFunction : JsVal → Bool
  | .func _ => true
  | _ => false

/-- The test `v instanceof Date`. -/
def instanceofDate : JsVal → Bool
  | .date _ => true
  | _ => false

/-- The test `v === null`. -/
def isNull : JsVal → Bool
  | .null => true
  | _ => false

/-- The test `Array.isArray(v)`. -/
def isArray : JsVal → Bool
  | .arr _ => true
  | _ => false

/-- JavaScript truthiness (`if (v)`, `!v`). -/
def truthy : JsVal → Bool
  | .undefined => false
  | .null => false
  | .bool b => b
  | .num n => n != 0
  | .str s => s != ""
  | _ => true

/-- The function `isObject` of the source (lines 60-63): `false` on `null` and
`undefined`, otherwise whether the prototype is that of `{}`. -/
def isObject (testMe : JsVal) : Bool :=
  if isNull testMe || (match testMe with | .undefined => true | _ => false) then false
  else match testMe with
    | .obj _ => true
    | _ => false

/-- The test `key[0] === "$"`. -/
def startsWithDollar (key : String) : Bool :=
  match key.data with
  | c :: _ => c == '$'
  | [] => false

/-- The write of an own data property in a property list: an existing key keeps its
place and gets the new value, a new key is added at the end. (The assignment
`target[key] = value` of the source is `assignKey`, which uses this write for every
key but `__proto__`.) -/
def setProp (ps : Props) (key : String) (value : JsVal) : Props :=
  match ps with
  | [] => [(key, value)]
  | (k, v) :: rest => if k = key then (key, value) :: rest else (k, v) :: setProp rest key value

/-- The read `o[key]` on a property list (`undefined` when the key is absent). -/
def lookupProp (ps : Props) (key : String) : JsVal :=
  match ps with
  | [] => .undefined
  | (k, v) :: rest => if k = key then v else lookupProp rest key

/-- Whether a property list has the key. -/
def hasKey (ps : Props) (key : String) : Bool :=
  ps.any (fun p => p.1 == key)

/-- The keys of a property list, in order. -/
def keysOf (ps : Props) : List String := ps.map Prod.fst

/-- Well-formedness of an object as a property list: no key occurs twice. -/
def keysNodup (ps : Props) : Prop := (keysOf ps).Nodup

/-- The elements of an array with their index keys `"i"`, `"i+1"`, ... -/
def indexed : List JsVal → Nat → Props
  | [], _ => []
  | v :: rest, i => (toString i, v) :: indexed rest (i + 1)

/-- The properties that `for (const key in v)` visits, with their values `v[key]`. -/
def forIn : JsVal → Props
  | .obj ps => ps
  | .inst ps => ps
  | .arr xs => indexed xs 0
  | .str s => indexed (s.data.map (fun c => JsVal.str (String.singleton c))) 0
  | _ => []

/-- The value `Object.keys(v).length` for an object value. -/
def objectKeysLength : JsVal → Nat
  | .obj ps => ps.length
  | .inst ps => ps.length
  | .arr xs => xs.length
  | .str s => s.length
  | _ => 0

/-- The read `o[key]` on a value. -/
def getProp (o : JsVal) (key : String) : JsVal := lookupProp (forIn o) key

/-! ## Assignment to a fresh object -/

/-- The object that a loop builds by assignments (`cleanQuery` of lines 68-77, the
target `{}` of `Object.assign` on line 102): its own properties, and the value that
the setter of `__proto__` made its prototype, if that happened. -/
structure Target where
  /-- The own properties, in the order of their creation. -/
  own : Props
  /-- The replaced prototype; `none` while it is still `Object.prototype`. -/
  proto : Option JsVal
  deriving Repr

/-- The fresh object `{}`. -/
def Target.empty : Target := { own := [], proto := none }

/-- Whether the setter of `__proto__` takes the value as the new prototype: it does
for an object and for `null`, and ignores any other value. -/
def canBePrototype (value : JsVal) : Bool := typeofObject value || isFunction value

/-- Whether an assignment to `__proto__` that finds no own property of that name
reaches the accessor that `Object.prototype` provides: it does while the prototype is
still `Object.prototype`; after a replacement it does when the new prototype is an
object that has no property of that name itself; it does not when the new prototype
is `null`, which cuts the chain. -/
def reachesProtoSetter (proto : Option JsVal) : Bool :=
  match proto with
  | none => true
  | some .null => false
  | some p => !hasKey (forIn p) "__proto__"

/-- The assignment `target[key] = value` on an object under construction. For the
key `__proto__`, when the target has no own property of that name and the assignment
reaches the accessor of `Object.prototype`, the setter of the accessor runs: it
replaces the prototype of the target when the value is an object or `null`, does
nothing otherwise, and adds no own property. In every other case the key is written
as an own property. -/
def assignKey (target : Target) (key : String) (value : JsVal) : Target :=
  if key == "__proto__" && !hasKey target.own key && reachesProtoSetter target.proto then
    if canBePrototype value then { target with proto := some value } else target
  else { target with own := setProp target.own key value }

/-- The object built, as a value: a plain object when the prototype was not
replaced; otherwise an object that is not plain, whose enumerable properties are its
own ones followed by those of the new prototype that no own key shadows. -/
def Target.finish (target : Target) : JsVal :=
  match target.proto with
  | none => .obj target.own
  | some p => .inst (target.own ++ (forIn p).filter (fun q => !hasKey target.own q.1))

/-! ## The query sanitizer (source lines 65-81) -/

mutual
/-- The function `sanitizeMongoKeys` of the source. The guard
`typeof query !== "object" || query instanceof Date || query === null` returns the
value itself; every other value (plain object, array, other object) is walked with
`for .. in` into a fresh object `cleanQuery`, which is returned. -/
def sanitizeMongoKeys : JsVal → JsVal
  | .obj ps => (sanitizeProps ps Target.empty).finish
  | .inst ps => (sanitizeProps ps Target.empty).finish
  | .arr xs => (sanitizeElems xs 0 Target.empty).finish
  | .undefined => .undefined
  | .null => .null
  | .bool b => .bool b
  | .num n => .num n
  | .str s => .str s
  | .date t => .date t
  | .func f => .func f
/-- The loop `for (const key in query)` over the properties of an object;
`cleanQuery` is the object built so far. -/
def sanitizeProps : Props → Target → Target
  | [], cleanQuery => cleanQuery
  | (key, value) :: rest, cleanQuery =>
    if startsWithDollar key then sanitizeProps rest cleanQuery
    else
      if isObject (sanitizeMongoKeys value) && decide (objectKeysLength (sanitizeMongoKeys value) < 1)
      then sanitizeProps rest cleanQuery
      else sanitizeProps rest (assignKey cleanQuery key value)
/-- The same loop over the elements of an array, whose keys are the indices
from `i` on. -/
def sanitizeElems : List JsVal → Nat → Target → Target
  | [], _, cleanQuery => cleanQuery
  | value :: rest, i, cleanQuery =>
    if startsWithDollar (toString i) then sanitizeElems rest (i + 1) cleanQuery
    else
      if isObject (sanitizeMongoKeys value) && decide (objectKeysLength (sanitizeMongoKeys value) < 1)
      then sanitizeElems rest (i + 1) cleanQuery
      else sanitizeElems rest (i + 1) (assignKey cleanQuery (toString i) value)
end

/-- The guard on the first line of `sanitizeMongoKeys`:
`typeof query !== "object" || query instanceof Date || query === null`. -/
def passesThrough (query : JsVal) : Bool :=
  !typeofObject query || instanceofDate query || isNull query

/-- The keep test of the loop for one property: the key is not operator-prefixed
and the sanitized value is not an empty plain object. -/
def kept (key : String) (value : JsVal) : Bool :=
  !startsWithDollar key &&
    !(isObject (sanitizeMongoKeys value) && decide (objectKeysLength (sanitizeMongoKeys value) < 1))

mutual
/-- Whether a value holds an operator-prefixed key at any depth. -/
def hasDollarKey : JsVal → Bool
  | .obj ps => hasDollarKeyProps ps
  | .inst ps => hasDollarKeyProps ps
  | .arr xs => hasDollarKeyElems xs
  | _ => false
/-- The same test over a property list. -/
def hasDollarKeyProps : Props → Bool
  | [] => false
  | (k, v) :: rest => startsWithDollar k || hasDollarKey v || hasDollarKeyProps rest
/-- The same test over the elements of an array. -/
def hasDollarKeyElems : List JsVal → Bool
  | [] => false
  | v :: rest => hasDollarKey v || hasDollarKeyElems rest
end

/-! ## Options (source lines 39-58 and 102) -/

/-- The constant `defaultOptions` of the source. -/
def defaultOptions : JsVal :=
  .obj [("appendToArray", .bool false), ("saveOptions", .obj []), ("saveIfFound", .bool false)]

/-- One source of `Object.assign(target, source)`: `null` and `undefined` are
skipped, the enumerable properties of any other source are assigned to the target in
order, each by an assignment `target[key] = value`. -/
def assignFrom (target : Target) (source : JsVal) : Target :=
  (forIn source).foldl (fun t p => assignKey t p.1 p.2) target

/-- The call `Object.assign({}, defaultOptions, modelOptions, contextOptions)`. -/
def mergeOptions (modelOptions contextOptions : JsVal) : JsVal :=
  (assignFrom (assignFrom (assignFrom Target.empty defaultOptions) modelOptions)
    contextOptions).finish

/-! ## Collaborators -/

/-- How a promise settles. -/
inductive Settled (α : Type) where
  | resolved (value : α)
  | rejected (reason : JsVal)
  deriving Repr

/-- The operations the plugin calls on the model (`this`) and on a document. `D` is
the state of a document. -/
structure Collection (D : Type) where
  /-- The call `this.findOne(query)`: resolves with a document or with `null`. -/
  findOne : JsVal → Settled (Option D)
  /-- The construction `new this(seed)`. -/
  construct : JsVal → D
  /-- The read `doc[field]`. -/
  get : D → String → JsVal
  /-- The call `doc.set(field, value)`. -/
  set : D → String → JsVal → D
  /-- The call `doc.isModified()`. -/
  isModified : D → Bool
  /-- The call `doc.save(saveOptions)`. -/
  save : D → JsVal → Settled Unit

/-- What a promise-style call resolves with: the bare result, or the envelope
`{ result, wasUpdated, isNew }`. -/
inductive Resolution (D : Type) where
  | bare (result : Option D)
  | envelope (result : Option D) (wasUpdated isNew : Bool)
  deriving Repr

/-- The observable operations of a call, in the order they happen. A document
appears in an event with the state it has at that moment. -/
inductive Event (D : Type) where
  | findOne (query : JsVal)
  | construct (seed : JsVal)
  | set (field : String) (value : JsVal)
  | isModified
  | save (doc : D) (saveOptions : JsVal)
  | callback (fn : Nat) (err : JsVal) (result : Option D) (wasUpdated isNew : Bool)
  | resolve (value : Resolution D)
  | reject (reason : JsVal)
  | unhandledRejection (reason : JsVal)
  deriving Repr

/-- The error a call of a value that is not a function throws. -/
def typeError : JsVal := .inst [("name", .str "TypeError")]

/-! ## The body of findOrCreate (source lines 84-152) -/

/-- The method `Array.prototype.concat` with one argument, on an array receiver:
an array argument is spread, any other argument is appended as one element. -/
def arrayConcat (receiver value : JsVal) : JsVal :=
  match receiver, value with
  | .arr xs, .arr ys => .arr (xs ++ ys)
  | .arr xs, v => .arr (xs ++ [v])
  | r, _ => r

/-- The value that the merge loop passes to `doc.set` for one field
(source lines 134-139). -/
def mergedValue {D : Type} (M : Collection D) (options : JsVal) (doc : D) (field : String)
    (value : JsVal) : JsVal :=
  if isArray (M.get doc field) && truthy (getProp options "appendToArray")
  then arrayConcat (M.get doc field) value
  else value

/-- The loop `for (const field in additionalFields)` (source lines 133-140): the
document after the loop and the `set` calls made. -/
def mergeLoop {D : Type} (M : Collection D) (options : JsVal) : Props → D → D × List (Event D)
  | [], doc => (doc, [])
  | (field, value) :: rest, doc =>
    let v := mergedValue M options doc field value
    let r := mergeLoop M options rest (M.set doc field v)
    (r.1, Event.set field v :: r.2)

/-- The callback synthesized when the caller gave none (source lines 107-120). -/
def deferredCallback {D : Type} (options err : JsVal) (result : Option D)
    (wasUpdated isNew : Bool) : List (Event D) :=
  if truthy err then [Event.reject err]
  else if truthy (getProp options "status")
    then [Event.resolve (Resolution.envelope result wasUpdated isNew)]
    else [Event.resolve (Resolution.bare result)]

/-- The call `callback(err, result, wasUpdated, isNew)`. When the caller gave no
callback (`!callback`) it is the synthesized one. A callback that is not a function
cannot be called: the call throws, the handler around it fails, and the error ends as
an unhandled rejection (from the handler of `findOne` it passes through `.catch`,
whose own call of the callback throws again). -/
def invoke {D : Type} (callback options err : JsVal) (result : Option D)
    (wasUpdated isNew : Bool) : List (Event D) :=
  if !truthy callback then deferredCallback options err result wasUpdated isNew
  else match callback with
    | .func fn => [Event.callback fn err result wasUpdated isNew]
    | _ => [Event.unhandledRejection typeError]

/-- The promise chain of source lines 123-149. -/
def orchestrate {D : Type} (M : Collection D) (query additionalFields options callback : JsVal) :
    List (Event D) :=
  Event.findOne query ::
  match M.findOne query with
  | .rejected err => invoke callback options err none false false
  | .resolved result =>
    if result.isSome && !truthy additionalFields
    then invoke callback options .null result false false
    else
      let creating := !result.isSome
      let made : D × List (Event D) :=
        match result with
        | none => (M.construct (sanitizeMongoKeys query), [Event.construct (sanitizeMongoKeys query)])
        | some found => (found, [])
      if !creating && !truthy (getProp options "saveIfFound")
      then made.2 ++ invoke callback options .null (some made.1) false creating
      else
        let merged : D × List (Event D) :=
          if truthy additionalFields then mergeLoop M options (forIn additionalFields) made.1
          else (made.1, [])
        made.2 ++ merged.2 ++ Event.isModified ::
          (if !M.isModified merged.1 && !creating
           then invoke callback options .null (some merged.1) false creating
           else Event.save merged.1 (getProp options "saveOptions") ::
             match M.save merged.1 (getProp options "saveOptions") with
             | .resolved _ => invoke callback options .null (some merged.1) true creating
             | .rejected reason => [Event.unhandledRejection reason])

/-- The fields the merge step visits: none when `additionalFields` is falsy
(`if (additionalFields)`), otherwise those of the `for .. in` loop. -/
def suppliedFields (additionalFields : JsVal) : Props :=
  if truthy additionalFields then forIn additionalFields else []

/-- What one call of `findOrCreate` does and returns. -/
structure Call (D : Type) where
  /-- The operations of the call, in order. -/
  events : List (Event D)
  /-- Whether the call returns the promise of a `Deferred` (otherwise `undefined`). -/
  returnsPromise : Bool

/-- The static `findOrCreate(query, additionalFields, contextOptions, callback)` that
the plugin installs, for a plugin registered with `modelOptions`. -/
def findOrCreate {D : Type} (M : Collection D) (modelOptions : JsVal)
    (query additionalFields contextOptions callback : JsVal) : Call D :=
  -- In the case of findOrCreate(query, callback)
  let callback1 := if isFunction additionalFields then additionalFields else callback
  let additionalFields1 := if isFunction additionalFields then JsVal.undefined else additionalFields
  -- In the case of findOrCreate(query, additionalFields, callback)
  let callback2 := if isFunction contextOptions then contextOptions else callback1
  let contextOptions1 := if isFunction contextOptions then JsVal.undefined else contextOptions
  let options := mergeOptions modelOptions contextOptions1
  { events := orchestrate M query additionalFields1 options callback2
    returnsPromise := !truthy callback2 }

/-! ## Measures on a run -/

/-- Whether an event notifies the caller: the callback is invoked, or the promise
is resolved or rejected. -/
def Event.isCompletion {D : Type} : Event D → Bool
  | .callback _ _ _ _ _ => true
  | .resolve _ => true
  | .reject _ => true
  | _ => false

/-- Whether an event is a call of `save`. -/
def Event.isSave {D : Type} : Event D → Bool
  | .save _ _ => true
  | _ => false

/-- Whether an event is a call of `set`. -/
def Event.isSet {D : Type} : Event D → Bool
  | .set _ _ => true
  | _ => false

/-- Whether an event is a construction of a document. -/
def Event.isConstruct {D : Type} : Event D → Bool
  | .construct _ => true
  | _ => false

/-- Whether an event is a rejection that no handler receives. -/
def Event.isUnhandled {D : Type} : Event D → Bool
  | .unhandledRejection _ => true
  | _ => false

/-- Whether an event is one of the steps that come before `save`: `findOne`, the
construction of a document, a `set`, or `isModified`. -/
def Event.isStep {D : Type} : Event D → Bool
  | .findOne _ => true
  | .construct _ => true
  | .set _ _ => true
  | .isModified => true
  | _ => false

/-- The field and value of a `set` event. -/
def Event.setArgs {D : Type} : Event D → Option (String × JsVal)
  | .set field value => some (field, value)
  | _ => none

/-- How many events of a run satisfy a test. -/
def countOf {D : Type} (p : Event D → Bool) (events : List (Event D)) : Nat :=
  (events.filter p).length

/-! ## A collection in memory -/

mutual
/-- Structural equality of values. -/
def JsVal.same : JsVal → JsVal → Bool
  | .undefined, .undefined => true
  | .null, .null => true
  | .bool a, .bool b => a == b
  | .num a, .num b => a == b
  | .str a, .str b => a == b
  | .date a, .date b => a == b
  | .func a, .func b => a == b
  | .arr xs, .arr ys => sameElems xs ys
  | .obj ps, .obj qs => sameProps ps qs
  | .inst ps, .inst qs => sameProps ps qs
  | _, _ => false
/-- Structural equality of arrays. -/
def sameElems : List JsVal → List JsVal → Bool
  | [], [] => true
  | x :: xs, y :: ys => JsVal.same x y && sameElems xs ys
  | _, _ => false
/-- Structural equality of property lists. -/
def sameProps : Props → Props → Bool
  | [], [] => true
  | (k, x) :: ps, (l, y) :: qs => k == l && JsVal.same x y && sameProps ps qs
  | _, _ => false
end

/-- A document in memory: its fields, and whether a field changed since it was
loaded or built. -/
structure MemDoc where
  fields : Props
  dirty : Bool
  deriving Repr

/-- A collection in memory, used to run the plugin on concrete inputs: `findOne`
settles as given, a new document takes the properties of its seed, `set` writes the
field and marks the document when the value differs, `isModified` reads the mark and
`save` settles as given. -/
def memCollection (found : Settled (Option MemDoc)) (saved : Settled Unit) : Collection MemDoc where
  findOne := fun _ => found
  construct := fun seed => { fields := forIn seed, dirty := false }
  get := fun doc field => lookupProp doc.fields field
  set := fun doc field value =>
    { fields := setProp doc.fields field value
      dirty := doc.dirty || !(JsVal.same (lookupProp doc.fields field) value) }
  isModified := fun doc => doc.dirty
  save := fun _ _ => saved


/-! ## Inputs of the scenarios -/

/-- The query `{email: "a@x.com"}`. -/
def emailQuery : JsVal := .obj [("email", .str "a@x.com")]

/-- The additional fields `{name: "A"}`. -/
def nameFields : JsVal := .obj [("name", .str "A")]

/-- The document `{email: "a@x.com", name: "A"}` after its field `name` was set. -/
def emailNameDoc : MemDoc :=
  { fields := [("email", .str "a@x.com"), ("name", .str "A")], dirty := true }

/-- A stored document `{name: "A"}`, as loaded. -/
def storedNameDoc : MemDoc := { fields := [("name", .str "A")], dirty := false }

/-- A stored document `{tags: [1, 2]}`, as loaded. -/
def storedTagsDoc : MemDoc :=
  { fields := [("tags", .arr [.num 1, .num 2])], dirty := false }

/-- The additional fields `{tags: [3]}`. -/
def tagsFields : JsVal := .obj [("tags", .arr [.num 3])]

/-- The query `{"": 1, a: [[1], []], b: null, c: undefined}`: an empty-string key,
nested arrays, and `null` and `undefined` leaves. -/
def leavesQuery : JsVal :=
  .obj [("", .num 1), ("a", .arr [.arr [.num 1], .arr []]), ("b", .null), ("c", .undefined)]

/-- The effective options of a call with the given `contextOptions` on a plugin
registered without options. -/
def optionsWith (contextOptions : JsVal) : JsVal := mergeOptions .undefined contextOptions

/-! ## Argument resolution (source lines 90-100) -/

/-- The callback after the two tests of lines 91-100: the fourth argument, replaced
by the second when that is a function, replaced by the third when that is a function. -/
def resolvedCallback (additionalFields contextOptions callback : JsVal) : JsVal :=
  if isFunction contextOptions then contextOptions
  else if isFunction additionalFields then additionalFields else callback

/-- The additional fields after the test of lines 91-94. -/
def resolvedFields (additionalFields : JsVal) : JsVal :=
  if isFunction additionalFields then .undefined else additionalFields

/-- The context options after the test of lines 97-100. -/
def resolvedContextOptions (contextOptions : JsVal) : JsVal :=
  if isFunction contextOptions then .undefined else contextOptions

/-! ## The two styles of a call -/

/-- What the synthesized callback does with the arguments of a call of the callback;
every other event is left as it is. -/
def settleWith {D : Type} (options : JsVal) : Event D → List (Event D)
  | .callback _ err result wasUpdated isNew => deferredCallback options err result wasUpdated isNew
  | e => [e]

/-- A run in callback style, read in promise style: each call of the callback is
replaced by what the synthesized callback does with the same arguments. -/
def promiseView {D : Type} (options : JsVal) : List (Event D) → List (Event D)
  | [] => []
  | e :: rest => settleWith options e ++ promiseView options rest

/-- The operations of a run on the collection and on documents: the run without the
notifications of the caller. -/
def storeOperations {D : Type} (events : List (Event D)) : List (Event D) :=
  events.filter (fun e => !e.isCompletion)

/-! ## The sanitizer with its errors

The same function as `sanitizeMongoKeys`, with the ways in which a call can fail: the
call stack is exhausted (each call of `sanitizeMongoKeys` on line 73 takes a frame),
a library call throws (`Object.getPrototypeOf` and `Object.keys`, both on `null` and
`undefined`), or the assignment of line 77 throws (the file is in strict mode, where
writing a name that the prototype holds read-only is an error). -/

/-- The error of a call that finds no room on the call stack. -/
def rangeError : JsVal := .inst [("name", .str "RangeError")]

/-- The comparison `Object.getPrototypeOf(v) === Object.getPrototypeOf({})`; the call
throws on `null` and `undefined` (a primitive is coerced to its wrapper object, whose
prototype is not that of `{}`). -/
def prototypeIsPlain : JsVal → Except JsVal Bool
  | .undefined => .error typeError
  | .null => .error typeError
  | .obj _ => .ok true
  | _ => .ok false

/-- The function `isObject` of the source, with the error of `Object.getPrototypeOf`. -/
def isObjectChecked (testMe : JsVal) : Except JsVal Bool :=
  if isNull testMe || (match testMe with | .undefined => true | _ => false) then .ok false
  else prototypeIsPlain testMe

/-- The value `Object.keys(v).length`; the call throws on `null` and `undefined`. -/
def objectKeysLengthChecked : JsVal → Except JsVal Nat
  | .undefined => .error typeError
  | .null => .error typeError
  | v => .ok (objectKeysLength v)

/-- The test `isObject(cleanParam) && Object.keys(cleanParam).length < 1`, with the
errors of both calls; `Object.keys` is called only when `isObject` answers `true`. -/
def emptyPlainChecked (cleanParam : JsVal) : Except JsVal Bool :=
  match isObjectChecked cleanParam with
  | .error e => .error e
  | .ok false => .ok false
  | .ok true =>
    match objectKeysLengthChecked cleanParam with
    | .error e => .error e
    | .ok n => .ok (decide (n < 1))

/-- The names that every function object holds read-only: `name` and `length` are
own properties that cannot be written, `arguments` and `caller` are own read-only
properties or an inherited accessor whose setter throws. -/
def readOnlyOfFunction (key : String) : Bool :=
  key == "name" || key == "length" || key == "arguments" || key == "caller"

/-- Whether the prototype of the target was replaced by a function. -/
def Target.protoIsFunction (target : Target) : Bool :=
  match target.proto with
  | some (.func _) => true
  | _ => false

/-- The assignment `cleanQuery[key] = query[key]` of line 77 in strict mode: it
throws when the key is not an own property of the target and the prototype, replaced
by a function, holds that name read-only. (For prototypes that are data, a written
name becomes an own property; the prototype of an `inst` is taken to hold nothing
read-only.) -/
def assignKeyChecked (target : Target) (key : String) (value : JsVal) : Except JsVal Target :=
  if key != "__proto__" && !hasKey target.own key && target.protoIsFunction &&
      readOnlyOfFunction key
  then .error typeError
  else .ok (assignKey target key value)

/-- The loop of lines 70-78 with errors; `recur` is the recursive call of line 73. -/
def sanitizeLoopChecked (recur : JsVal → Except JsVal JsVal) :
    Props → Target → Except JsVal Target
  | [], cleanQuery => .ok cleanQuery
  | (key, value) :: rest, cleanQuery =>
    if startsWithDollar key then sanitizeLoopChecked recur rest cleanQuery
    else
      match recur value with
      | .error e => .error e
      | .ok cleanParam =>
        match emptyPlainChecked cleanParam with
        | .error e => .error e
        | .ok true => sanitizeLoopChecked recur rest cleanQuery
        | .ok false =>
          match assignKeyChecked cleanQuery key value with
          | .error e => .error e
          | .ok next => sanitizeLoopChecked recur rest next

/-- The function `sanitizeMongoKeys` of the source on a stack with room for `frames`
nested calls of it: a call without room throws a `RangeError`; a call with room
returns the value at the guard, or runs the loop with one frame less for the calls
of line 73. -/
def sanitizeChecked : Nat → JsVal → Except JsVal JsVal
  | 0, _ => .error rangeError
  | frames + 1, query =>
    if passesThrough query then .ok query
    else
      match sanitizeLoopChecked (sanitizeChecked frames) (forIn query) Target.empty with
      | .error e => .error e
      | .ok cleanQuery => .ok cleanQuery.finish

mutual
/-- The number of nested calls of `sanitizeMongoKeys` that a value asks for at most:
one for the value itself, and below it those of the deepest property or element. -/
def callDepth : JsVal → Nat
  | .obj ps => callDepthProps ps + 1
  | .inst ps => callDepthProps ps + 1
  | .arr xs => callDepthElems xs + 1
  | _ => 1
/-- The largest call depth among the values of a property list. -/
def callDepthProps : Props → Nat
  | [] => 0
  | (_, v) :: rest => max (callDepth v) (callDepthProps rest)
/-- The largest call depth among the elements of an array. -/
def callDepthElems : List JsVal → Nat
  | [] => 0
  | v :: rest => max (callDepth v) (callDepthElems rest)
end

mutual
/-- Whether a value holds, at any depth, a property `__proto__` whose value is a
function. -/
def hasFunctionProto : JsVal → Bool
  | .obj ps => hasFunctionProtoProps ps
  | .inst ps => hasFunctionProtoProps ps
  | .arr xs => hasFunctionProtoElems xs 0
  | _ => false
/-- The same test over a property list. -/
def hasFunctionProtoProps : Props → Bool
  | [] => false
  | (k, v) :: rest =>
    (k == "__proto__" && isFunction v) || hasFunctionProto v || hasFunctionProtoProps rest
/-- The same test over the elements of an array, whose keys are the indices from
`i` on. -/
def hasFunctionProtoElems : List JsVal → Nat → Bool
  | [], _ => false
  | v :: rest, i =>
    (toString i == "__proto__" && isFunction v) || hasFunctionProto v ||
      hasFunctionProtoElems rest (i + 1)
end

/-- The value `{a: {a: ... {a: 0}}}` with `n` nested mappings. -/
def nested : Nat → JsVal
  | 0 => .num 0
  | n + 1 => .obj [("a", nested n)]

/-! ## Queries without operators -/

mutual
/-- Whether a value holds an empty plain mapping `{}` or an empty array `[]` at any
depth (itself included). -/
def hasEmptyCollection : JsVal → Bool
  | .obj [] => true
  | .arr [] => true
  | .obj (p :: ps) => hasEmptyCollectionProps (p :: ps)
  | .arr (x :: xs) => hasEmptyCollectionElems (x :: xs)
  | .inst ps => hasEmptyCollectionProps ps
  | _ => false
/-- The same test over the values of a property list. -/
def hasEmptyCollectionProps : Props → Bool
  | [] => false
  | (_, v) :: rest => hasEmptyCollection v || hasEmptyCollectionProps rest
/-- The same test over the elements of an array. -/
def hasEmptyCollectionElems : List JsVal → Bool
  | [] => false
  | v :: rest => hasEmptyCollection v || hasEmptyCollectionElems rest
end

mutual
/-- Whether a value holds, at any depth (itself included), an object that the loop
of `sanitizeMongoKeys` walks and that has no enumerable property: `{}`, `[]`, or any
other object that is not a date, such as a regular expression. -/
def hasEmptyObject : JsVal → Bool
  | .obj [] => true
  | .arr [] => true
  | .inst [] => true
  | .obj (p :: ps) => hasEmptyObjectProps (p :: ps)
  | .arr (x :: xs) => hasEmptyObjectElems (x :: xs)
  | .inst (p :: ps) => hasEmptyObjectProps (p :: ps)
  | _ => false
/-- The same test over the values of a property list. -/
def hasEmptyObjectProps : Props → Bool
  | [] => false
  | (_, v) :: rest => hasEmptyObject v || hasEmptyObjectProps rest
/-- The same test over the elements of an array. -/
def hasEmptyObjectElems : List JsVal → Bool
  | [] => false
  | v :: rest => hasEmptyObject v || hasEmptyObjectElems rest
end

mutual
/-- Whether a value holds a property named `__proto__` at any depth. -/
def hasProtoKey : JsVal → Bool
  | .obj ps => hasProtoKeyProps ps
  | .inst ps => hasProtoKeyProps ps
  | .arr xs => hasProtoKeyElems xs
  | _ => false
/-- The same test over a property list. -/
def hasProtoKeyProps : Props → Bool
  | [] => false
  | (k, v) :: rest => k == "__proto__" || hasProtoKey v || hasProtoKeyProps rest
/-- The same test over the elements of an array. -/
def hasProtoKeyElems : List JsVal → Bool
  | [] => false
  | v :: rest => hasProtoKey v || hasProtoKeyElems rest
end

/-- A regular expression such as `/abc/`: an object that is not plain and has no
enumerable property. -/
def regExp : JsVal := .inst []

/-! ## Property lists -/

theorem keysOf_setProp (ps : Props) (k : String) (v : JsVal) :
    keysOf (setProp ps k v) = if k ∈ keysOf ps then keysOf ps else keysOf ps ++ [k] := by
  induction ps with
  | nil => simp [setProp, keysOf]
  | cons p rest ih =>
    obtain ⟨k', v'⟩ := p
    by_cases h : k' = k
    · subst h; simp [setProp, keysOf]
    · have h' : ¬ k = k' := fun e => h e.symm
      simp only [keysOf] at ih
      simp only [setProp, h, keysOf, if_false, List.map_cons, List.mem_cons, h', false_or, ih]
      split <;> simp

theorem setProp_of_not_mem (ps : Props) (k : String) (v : JsVal) (h : k ∉ keysOf ps) :
    setProp ps k v = ps ++ [(k, v)] := by
  induction ps with
  | nil => simp [setProp]
  | cons p rest ih =>
    obtain ⟨k', v'⟩ := p
    simp only [keysOf, List.map_cons, List.mem_cons, not_or] at h
    have h' : ¬ k' = k := fun e => h.1 e.symm
    simp only [setProp, h', if_false, List.cons_append, List.cons.injEq, true_and]
    exact ih h.2

theorem mem_setProp (ps : Props) (k : String) (v : JsVal) (p : String × JsVal)
    (h : p ∈ setProp ps k v) : p = (k, v) ∨ p ∈ ps := by
  induction ps with
  | nil => simpa [setProp] using h
  | cons q rest ih =>
    obtain ⟨k', v'⟩ := q
    by_cases hk : k' = k
    · simp only [setProp, hk, if_true, List.mem_cons] at h
      rcases h with h | h
      · exact Or.inl h
      · exact Or.inr (List.mem_cons_of_mem _ h)
    · simp only [setProp, hk, if_false, List.mem_cons] at h
      rcases h with h | h
      · exact Or.inr (h ▸ List.mem_cons_self _ _)
      · rcases ih h with h | h
        · exact Or.inl h
        · exact Or.inr (List.mem_cons_of_mem _ h)

theorem keysNodup_setProp (ps : Props) (k : String) (v : JsVal) (h : keysNodup ps) :
    keysNodup (setProp ps k v) := by
  unfold keysNodup at *
  rw [keysOf_setProp]
  split
  · exact h
  · rename_i hk
    exact List.Nodup.append h (List.nodup_singleton k) (by simpa using hk)

/-- Assigning a list of properties with fresh, distinct keys appends them. -/
theorem foldl_setProp_fresh (l acc : Props) (h : keysNodup (acc ++ l)) :
    l.foldl (fun a p => setProp a p.1 p.2) acc = acc ++ l := by
  induction l generalizing acc with
  | nil => simp
  | cons p rest ih =>
    have hk : p.1 ∉ keysOf acc := by
      unfold keysNodup keysOf at h
      simp only [List.map_append, List.map_cons] at h
      have := (List.nodup_append.mp h).2.2
      intro hin
      exact this hin (List.mem_cons_self _ _)
    simp only [List.foldl_cons]
    rw [setProp_of_not_mem _ _ _ hk, ih]
    · simp
    · simpa using h

theorem mem_foldl_setProp (l acc : Props) (p : String × JsVal)
    (h : p ∈ l.foldl (fun a q => setProp a q.1 q.2) acc) : p ∈ acc ∨ p ∈ l := by
  induction l generalizing acc with
  | nil => exact Or.inl h
  | cons q rest ih =>
    rcases ih _ h with h | h
    · rcases mem_setProp _ _ _ _ h with h | h
      · exact Or.inr (h ▸ List.mem_cons_self _ _)
      · exact Or.inl h
    · exact Or.inr (List.mem_cons_of_mem _ h)

theorem keysNodup_foldl_setProp (l acc : Props) (h : keysNodup acc) :
    keysNodup (l.foldl (fun a q => setProp a q.1 q.2) acc) := by
  induction l generalizing acc with
  | nil => exact h
  | cons q rest ih => exact ih _ (keysNodup_setProp _ _ _ h)

theorem keysNodup_nil : keysNodup [] := by
  simp [keysNodup, keysOf]

theorem keysNodup_filter (ps : Props) (f : String × JsVal → Bool) (h : keysNodup ps) :
    keysNodup (ps.filter f) := by
  unfold keysNodup keysOf at *
  exact List.Nodup.sublist (List.Sublist.map _ (List.filter_sublist _)) h

theorem lookupProp_of_mem (ps : Props) (k : String) (v : JsVal) (h : keysNodup ps)
    (hm : (k, v) ∈ ps) : lookupProp ps k = v := by
  induction ps with
  | nil => simp at hm
  | cons q rest ih =>
    obtain ⟨k', v'⟩ := q
    unfold keysNodup keysOf at h
    simp only [List.map_cons, List.nodup_cons] at h
    simp only [List.mem_cons, Prod.mk.injEq] at hm
    rcases hm with ⟨hk, hv⟩ | hm
    · simp [lookupProp, hk, hv]
    · have hne : ¬ k' = k := by
        intro e
        apply h.1
        rw [e]
        exact List.mem_map.mpr ⟨(k, v), hm, rfl⟩
      simp only [lookupProp, hne, if_false]
      exact ih h.2 hm

theorem mem_of_mem_keysOf (ps : Props) (k : String) (h : keysNodup ps) (hk : k ∈ keysOf ps) :
    (k, lookupProp ps k) ∈ ps := by
  obtain ⟨p, hp, rfl⟩ := List.mem_map.mp hk
  obtain ⟨k, v⟩ := p
  simp only
  rw [lookupProp_of_mem ps k v h hp]
  exact hp

theorem hasKey_iff_mem (ps : Props) (n : String) : hasKey ps n = true ↔ n ∈ keysOf ps := by
  simp only [hasKey, keysOf, List.any_eq_true, List.mem_map, beq_iff_eq]

theorem length_setProp_ge (ps : Props) (k : String) (v : JsVal) :
    ps.length ≤ (setProp ps k v).length ∧ 1 ≤ (setProp ps k v).length := by
  induction ps with
  | nil => simp [setProp]
  | cons p rest ih =>
    obtain ⟨k', v'⟩ := p
    by_cases h : k' = k
    · simp [setProp, h]
    · simp only [setProp, h, if_false, List.length_cons]
      omega

/-! ## Assignment -/

theorem assignKey_of_ne (t : Target) (k : String) (v : JsVal) (hk : k ≠ "__proto__") :
    assignKey t k v = { own := setProp t.own k v, proto := t.proto } := by
  unfold assignKey
  have : (k == "__proto__") = false := by simpa using hk
  simp [this]

/-- On an object whose prototype is still `Object.prototype` and which has no own
`__proto__`, the assignment of `__proto__` adds no own property. -/
theorem assignKey_proto_fresh (t : Target) (v : JsVal) (hp : t.proto = none)
    (ho : "__proto__" ∉ keysOf t.own) :
    (assignKey t "__proto__" v).own = t.own ∧
      "__proto__" ∉ keysOf (assignKey t "__proto__" v).own := by
  have hk : hasKey t.own "__proto__" = false := by
    cases h : hasKey t.own "__proto__"
    · rfl
    · exact absurd ((hasKey_iff_mem _ _).mp h) ho
  unfold assignKey
  simp only [beq_self_eq_true, hk, Bool.not_false, Bool.and_self, hp, reachesProtoSetter,
    if_true]
  split <;> exact ⟨rfl, ho⟩

theorem mem_assignKey_own (t : Target) (k : String) (v : JsVal) (p : String × JsVal)
    (h : p ∈ (assignKey t k v).own) : p = (k, v) ∨ p ∈ t.own := by
  unfold assignKey at h
  split at h
  · split at h
    · exact Or.inr h
    · exact Or.inr h
  · exact mem_setProp _ _ _ _ h

theorem length_assignKey_own_ge (t : Target) (k : String) (v : JsVal) :
    t.own.length ≤ (assignKey t k v).own.length := by
  unfold assignKey
  split
  · split <;> exact Nat.le_refl _
  · exact (length_setProp_ge t.own k v).1

theorem keysNodup_assignKey_own (t : Target) (k : String) (v : JsVal) (h : keysNodup t.own) :
    keysNodup (assignKey t k v).own := by
  unfold assignKey
  split
  · split <;> exact h
  · exact keysNodup_setProp _ _ _ h

theorem mem_foldl_assignKey_own (l : Props) (t : Target) (p : String × JsVal)
    (h : p ∈ (l.foldl (fun t q => assignKey t q.1 q.2) t).own) : p ∈ t.own ∨ p ∈ l := by
  induction l generalizing t with
  | nil => exact Or.inl h
  | cons q rest ih =>
    rcases ih _ h with h | h
    · rcases mem_assignKey_own _ _ _ _ h with h | h
      · exact Or.inr (h ▸ List.mem_cons_self _ _)
      · exact Or.inl h
    · exact Or.inr (List.mem_cons_of_mem _ h)

theorem length_foldl_assignKey_own_ge (l : Props) (t : Target) :
    t.own.length ≤ (l.foldl (fun t q => assignKey t q.1 q.2) t).own.length := by
  induction l generalizing t with
  | nil => exact Nat.le_refl _
  | cons q rest ih => exact Nat.le_trans (length_assignKey_own_ge t q.1 q.2) (ih _)

theorem keysNodup_foldl_assignKey_own (l : Props) (t : Target) (h : keysNodup t.own) :
    keysNodup (l.foldl (fun t q => assignKey t q.1 q.2) t).own := by
  induction l generalizing t with
  | nil => exact h
  | cons q rest ih => exact ih _ (keysNodup_assignKey_own _ _ _ h)

/-- A run of assignments without the key `__proto__` writes own properties only. -/
theorem foldl_assignKey_plain (l : Props) (t : Target) (h : "__proto__" ∉ keysOf l) :
    l.foldl (fun t p => assignKey t p.1 p.2) t =
      { own := l.foldl (fun a p => setProp a p.1 p.2) t.own, proto := t.proto } := by
  induction l generalizing t with
  | nil => rfl
  | cons q rest ih =>
    obtain ⟨k, v⟩ := q
    simp only [keysOf, List.map_cons, List.mem_cons, not_or] at h
    rw [List.foldl_cons, assignKey_of_ne _ _ _ (fun e => h.1 e.symm),
      ih _ (by simpa [keysOf] using h.2)]
    rfl

theorem filter_ne_proto_of_not_mem (l : Props) (h : "__proto__" ∉ keysOf l) :
    l.filter (fun p => p.1 != "__proto__") = l := by
  apply List.filter_eq_self.mpr
  intro p hp
  have : p.1 ≠ "__proto__" := fun e => h (e ▸ List.mem_map.mpr ⟨p, hp, rfl⟩)
  simpa using this

/-- The own properties after the assignments of a well-formed object to an object
that is still plain and without own `__proto__`: the key `__proto__` adds none. -/
theorem foldl_assignKey_own_wf (l : Props) (hl : keysNodup l) (t : Target)
    (hp : t.proto = none) (ho : "__proto__" ∉ keysOf t.own) :
    (l.foldl (fun t p => assignKey t p.1 p.2) t).own =
      (l.filter (fun p => p.1 != "__proto__")).foldl (fun a p => setProp a p.1 p.2) t.own := by
  induction l generalizing t with
  | nil => rfl
  | cons q rest ih =>
    obtain ⟨k, v⟩ := q
    have hrest : keysNodup rest := by
      unfold keysNodup keysOf at *
      exact (List.nodup_cons.mp hl).2
    have hk : k ∉ keysOf rest := by
      unfold keysNodup keysOf at hl
      exact (List.nodup_cons.mp hl).1
    rw [List.foldl_cons, List.filter_cons]
    by_cases hkp : k = "__proto__"
    · subst hkp
      rw [foldl_assignKey_plain _ _ hk, filter_ne_proto_of_not_mem _ hk]
      simp [(assignKey_proto_fresh t v hp ho).1]
    · have hne : (k != "__proto__") = true := by simpa using hkp
      simp only [hne, if_true, List.foldl_cons]
      rw [ih hrest _ (by rw [assignKey_of_ne _ _ _ hkp]; exact hp)
        (by
          rw [assignKey_of_ne _ _ _ hkp]
          show "__proto__" ∉ keysOf (setProp t.own k v)
          rw [keysOf_setProp]
          split
          · exact ho
          · intro hmem
            rcases List.mem_append.mp hmem with h | h
            · exact ho h
            · simp at h; exact hkp h.symm),
        assignKey_of_ne _ _ _ hkp]

theorem finish_of_proto_none (t : Target) (h : t.proto = none) : t.finish = .obj t.own := by
  unfold Target.finish
  rw [h]

/-! ## The sanitizer loop -/

theorem emptyPlain_iff (v : JsVal) :
    (isObject v && decide (objectKeysLength v < 1)) = true ↔ v = JsVal.obj [] := by
  cases v <;> simp [isObject, isNull, objectKeysLength]

theorem kept_iff (k : String) (v : JsVal) :
    kept k v = true ↔ (startsWithDollar k = false ∧ sanitizeMongoKeys v ≠ .obj []) := by
  have := emptyPlain_iff (sanitizeMongoKeys v)
  simp only [kept, Bool.and_eq_true, Bool.not_eq_true']
  constructor
  · rintro ⟨h1, h2⟩
    refine ⟨h1, fun e => ?_⟩
    rw [this.mpr e] at h2
    exact Bool.noConfusion h2
  · rintro ⟨h1, h2⟩
    refine ⟨h1, ?_⟩
    cases hb : (isObject (sanitizeMongoKeys v) &&
      decide (objectKeysLength (sanitizeMongoKeys v) < 1))
    · rfl
    · exact absurd (this.mp hb) h2

/-- The loop is a run of assignments of the kept properties. -/
theorem sanitizeProps_eq_foldl (ps : Props) (t : Target) :
    sanitizeProps ps t =
      (ps.filter (fun p => kept p.1 p.2)).foldl (fun t p => assignKey t p.1 p.2) t := by
  induction ps generalizing t with
  | nil => simp [sanitizeProps]
  | cons p rest ih =>
    obtain ⟨k, v⟩ := p
    rw [sanitizeProps, List.filter_cons]
    simp only [kept, ih]
    cases startsWithDollar k
    · cases (isObject (sanitizeMongoKeys v) && decide (objectKeysLength (sanitizeMongoKeys v) < 1)) <;> simp
    · simp

theorem sanitizeElems_eq_props (xs : List JsVal) (i : Nat) (t : Target) :
    sanitizeElems xs i t = sanitizeProps (indexed xs i) t := by
  induction xs generalizing i t with
  | nil => simp [sanitizeElems, sanitizeProps, indexed]
  | cons x rest ih =>
    rw [sanitizeElems, indexed, sanitizeProps]
    simp only [ih]

/-- Every own property of the object built is a kept property of the input, or was
already there. -/
theorem mem_sanitizeProps_own (ps : Props) (t : Target) (p : String × JsVal)
    (h : p ∈ (sanitizeProps ps t).own) : p ∈ t.own ∨ (p ∈ ps ∧ kept p.1 p.2 = true) := by
  rw [sanitizeProps_eq_foldl] at h
  rcases mem_foldl_assignKey_own _ _ _ h with h | h
  · exact Or.inl h
  · exact Or.inr ⟨(List.mem_filter.mp h).1, (List.mem_filter.mp h).2⟩

theorem not_mem_keysOf_filter (ps : Props) (f : String × JsVal → Bool) (k : String)
    (h : k ∉ keysOf ps) : k ∉ keysOf (ps.filter f) := by
  intro hk
  apply h
  obtain ⟨p, hp, hp1⟩ := List.mem_map.mp hk
  exact List.mem_map.mpr ⟨p, (List.mem_filter.mp hp).1, hp1⟩

/-- Without a key `__proto__` the loop writes the kept properties as own properties
and leaves the prototype as it is. -/
theorem sanitizeProps_plain (ps : Props) (t : Target) (h : "__proto__" ∉ keysOf ps) :
    sanitizeProps ps t =
      { own := (ps.filter (fun p => kept p.1 p.2)).foldl (fun a p => setProp a p.1 p.2) t.own,
        proto := t.proto } := by
  rw [sanitizeProps_eq_foldl, foldl_assignKey_plain _ _ (not_mem_keysOf_filter ps _ _ h)]

/-- On a well-formed object the own properties built are a filter of the input. -/
theorem sanitizeProps_own_eq_filter (ps : Props) (h : keysNodup ps) :
    (sanitizeProps ps Target.empty).own =
      ps.filter (fun p => kept p.1 p.2 && p.1 != "__proto__") := by
  rw [sanitizeProps_eq_foldl,
    foldl_assignKey_own_wf _ (keysNodup_filter ps _ h) Target.empty rfl
      (by simp [Target.empty, keysOf]),
    List.filter_filter]
  show List.foldl _ [] _ = _
  rw [foldl_setProp_fresh]
  · simp only [List.nil_append]
    apply List.filter_congr
    intro p _
    exact Bool.and_comm _ _
  · simpa using keysNodup_filter _ _ (keysNodup_filter ps _ h)

/-- Without a key `__proto__` the object built is plain. -/
theorem sanitize_finish_plain (ps : Props) (h : "__proto__" ∉ keysOf ps) :
    (sanitizeProps ps Target.empty).finish = .obj (sanitizeProps ps Target.empty).own :=
  finish_of_proto_none _ (by rw [sanitizeProps_plain ps _ h]; rfl)

/-- The loop leaves its own plain output as it is. -/
theorem sanitizeProps_fixed (ps : Props) (h : "__proto__" ∉ keysOf ps) :
    (sanitizeProps (sanitizeProps ps Target.empty).own Target.empty).finish =
      .obj (sanitizeProps ps Target.empty).own := by
  have hkeys : ∀ p ∈ (sanitizeProps ps Target.empty).own, p ∈ ps ∧ kept p.1 p.2 = true := by
    intro p hp
    rcases mem_sanitizeProps_own ps _ p hp with h' | h'
    · exact absurd h' (List.not_mem_nil _)
    · exact h'
  have hno : "__proto__" ∉ keysOf (sanitizeProps ps Target.empty).own := by
    intro hk
    obtain ⟨p, hp, hp1⟩ := List.mem_map.mp hk
    exact h (List.mem_map.mpr ⟨p, (hkeys p hp).1, hp1⟩)
  have hnd : keysNodup (sanitizeProps ps Target.empty).own := by
    rw [sanitizeProps_eq_foldl]
    exact keysNodup_foldl_assignKey_own _ _ keysNodup_nil
  rw [sanitize_finish_plain _ hno, sanitizeProps_own_eq_filter _ hnd]
  congr 1
  apply List.filter_eq_self.mpr
  intro p hp
  have h1 := (hkeys p hp).2
  have h2 : p.1 ≠ "__proto__" := fun e => hno (e ▸ List.mem_map.mpr ⟨p, hp, rfl⟩)
  simp [h1, h2]

/-- A value at the guard is returned as it is; any other value is rebuilt by the loop
over its enumerable properties. -/
theorem sanitize_cases (v : JsVal) :
    if passesThrough v = true then sanitizeMongoKeys v = v
    else sanitizeMongoKeys v = (sanitizeProps (forIn v) Target.empty).finish := by
  cases v <;>
    simp [passesThrough, typeofObject, instanceofDate, isNull, sanitizeMongoKeys, forIn,
      sanitizeElems_eq_props]

/-! ## The sanitizer: claims C6 to C9 -/

/-- C6, counterexample: the query `{a: {b: 1, $gt: 5}}` is returned with its nested
value as it is, so the result holds the operator-prefixed key `$gt` at depth two. -/
theorem C6_counterexample_nested_operator_survives :
    sanitizeMongoKeys (.obj [("a", .obj [("b", .num 1), ("$gt", .num 5)])])
        = .obj [("a", .obj [("b", .num 1), ("$gt", .num 5)])] ∧
      hasDollarKey (sanitizeMongoKeys (.obj [("a", .obj [("b", .num 1), ("$gt", .num 5)])]))
        = true :=
  ⟨rfl, rfl⟩

/-- C6, amended: for every query mapping, the object that `sanitizeMongoKeys` builds
has no operator-prefixed key among its own keys, and each of its own properties is a
property of the query with the value the query has there (so what is nested in a
kept value stays); when the query has no own key `__proto__`, the result is the plain
mapping of these own properties. -/
theorem C6_no_operator_key_among_own_keys (ps : Props) :
    ∃ t : Target, sanitizeMongoKeys (.obj ps) = t.finish ∧
      (∀ k, k ∈ keysOf t.own → startsWithDollar k = false) ∧
      (∀ p, p ∈ t.own → p ∈ ps) ∧
      ("__proto__" ∉ keysOf ps → sanitizeMongoKeys (.obj ps) = .obj t.own) := by
  have hkeys : ∀ p ∈ (sanitizeProps ps Target.empty).own, p ∈ ps ∧ kept p.1 p.2 = true := by
    intro p hp
    rcases mem_sanitizeProps_own ps _ p hp with h' | h'
    · exact absurd h' (List.not_mem_nil _)
    · exact h'
  refine ⟨sanitizeProps ps Target.empty, by rw [sanitizeMongoKeys], ?_, ?_, ?_⟩
  · intro k hk
    obtain ⟨p, hp, rfl⟩ := List.mem_map.mp hk
    exact ((kept_iff _ _).mp (hkeys p hp).2).1
  · intro p hp
    exact (hkeys p hp).1
  · intro hno
    rw [sanitizeMongoKeys, sanitize_finish_plain ps hno]

/-- C7, counterexample: the query with the one own key `__proto__`, of value
`{$gt: 5, a: 1}` (what `JSON.parse` gives). The key does not begin with `$` and its
sanitized value `{a: 1}` is not empty, yet the key is not in the result: the
assignment of line 77 made the value the prototype of the result, which is not plain
and has the keys `$gt` and `a`, keys that the query does not have. -/
theorem C7_counterexample_proto_key_is_not_copied :
    keysNodup [("__proto__", JsVal.obj [("$gt", .num 5), ("a", .num 1)])] ∧
      startsWithDollar "__proto__" = false ∧
      sanitizeMongoKeys (.obj [("$gt", .num 5), ("a", .num 1)]) = .obj [("a", .num 1)] ∧
      sanitizeMongoKeys (.obj [("__proto__", .obj [("$gt", .num 5), ("a", .num 1)])])
        = .inst [("$gt", .num 5), ("a", .num 1)] ∧
      "__proto__" ∉ keysOf (forIn (sanitizeMongoKeys
        (.obj [("__proto__", .obj [("$gt", .num 5), ("a", .num 1)])]))) ∧
      "$gt" ∈ keysOf (forIn (sanitizeMongoKeys
        (.obj [("__proto__", .obj [("$gt", .num 5), ("a", .num 1)])]))) ∧
      "$gt" ∉ keysOf [("__proto__", JsVal.obj [("$gt", .num 5), ("a", .num 1)])] := by
  have h : sanitizeMongoKeys (.obj [("__proto__", .obj [("$gt", .num 5), ("a", .num 1)])])
      = .inst [("$gt", .num 5), ("a", .num 1)] := rfl
  refine ⟨by simp [keysNodup, keysOf], rfl, rfl, h, ?_, ?_, ?_⟩
  · rw [h]; simp [forIn, keysOf]
  · rw [h]; simp [forIn, keysOf]
  · simp [keysOf]

/-- C7, amended: for a query mapping `Q` (a well-formed object) the object that
`sanitizeMongoKeys` builds is such that a key `K` of `Q` other than `__proto__` is
one of its own keys exactly when `K` does not begin with `$` and
`sanitizeMongoKeys(Q[K])` is not the empty plain mapping; at every own key the value
is `Q[K]` itself; every own key is a key of `Q` and is not `__proto__`; and when `Q`
has no own key `__proto__` the result is the plain mapping of these own properties. -/
theorem C7_keys_kept_with_original_values (ps : Props) (hwf : keysNodup ps) :
    ∃ t : Target, sanitizeMongoKeys (.obj ps) = t.finish ∧
      (∀ k, k ∈ keysOf ps → k ≠ "__proto__" →
        (k ∈ keysOf t.own ↔
          (startsWithDollar k = false ∧ sanitizeMongoKeys (lookupProp ps k) ≠ .obj []))) ∧
      (∀ k, k ∈ keysOf t.own → lookupProp t.own k = lookupProp ps k) ∧
      (∀ k, k ∈ keysOf t.own → k ∈ keysOf ps ∧ k ≠ "__proto__") ∧
      ("__proto__" ∉ keysOf ps → sanitizeMongoKeys (.obj ps) = .obj t.own) := by
  have hown := sanitizeProps_own_eq_filter ps hwf
  have hout : keysNodup (sanitizeProps ps Target.empty).own := by
    rw [hown]; exact keysNodup_filter ps _ hwf
  have hmemown : ∀ p, p ∈ (sanitizeProps ps Target.empty).own ↔
      (p ∈ ps ∧ kept p.1 p.2 = true ∧ p.1 ≠ "__proto__") := by
    intro p
    rw [hown, List.mem_filter]
    simp only [Bool.and_eq_true, bne_iff_ne, ne_eq]
  refine ⟨sanitizeProps ps Target.empty, by rw [sanitizeMongoKeys], ?_, ?_, ?_, ?_⟩
  · intro k hk hne
    have hmem := mem_of_mem_keysOf ps k hwf hk
    rw [← kept_iff]
    constructor
    · intro h
      obtain ⟨p, hp, rfl⟩ := List.mem_map.mp h
      obtain ⟨hp1, hp2, _⟩ := (hmemown p).mp hp
      obtain ⟨k, v⟩ := p
      rw [lookupProp_of_mem ps k v hwf hp1]
      exact hp2
    · intro h
      exact List.mem_map.mpr ⟨(k, lookupProp ps k), (hmemown _).mpr ⟨hmem, h, hne⟩, rfl⟩
  · intro k hk
    obtain ⟨p, hp, rfl⟩ := List.mem_map.mp hk
    obtain ⟨k, v⟩ := p
    rw [lookupProp_of_mem _ k v hout hp,
      lookupProp_of_mem ps k v hwf ((hmemown _).mp hp).1]
  · intro k hk
    obtain ⟨p, hp, rfl⟩ := List.mem_map.mp hk
    exact ⟨List.mem_map.mpr ⟨p, ((hmemown p).mp hp).1, rfl⟩, ((hmemown p).mp hp).2.2⟩
  · intro hno
    rw [sanitizeMongoKeys, sanitize_finish_plain ps hno]

/-- Witness of C7 at `{name: "a", $or: [], nested: {$gt: 5}}`, which sanitizes to
`{name: "a"}`. -/
theorem C7_keys_kept_with_original_values_witness :
    keysNodup [("name", JsVal.str "a"), ("$or", JsVal.arr []),
        ("nested", JsVal.obj [("$gt", JsVal.num 5)])] ∧
      sanitizeMongoKeys (.obj [("name", JsVal.str "a"), ("$or", JsVal.arr []),
        ("nested", JsVal.obj [("$gt", JsVal.num 5)])]) = .obj [("name", .str "a")] ∧
      ∃ t : Target, sanitizeMongoKeys (.obj [("name", JsVal.str "a"), ("$or", JsVal.arr []),
          ("nested", JsVal.obj [("$gt", JsVal.num 5)])]) = t.finish ∧
        (∀ k, k ∈ keysOf [("name", JsVal.str "a"), ("$or", JsVal.arr []),
            ("nested", JsVal.obj [("$gt", JsVal.num 5)])] → k ≠ "__proto__" →
          (k ∈ keysOf t.own ↔
            (startsWithDollar k = false ∧
              sanitizeMongoKeys (lookupProp [("name", JsVal.str "a"), ("$or", JsVal.arr []),
                ("nested", JsVal.obj [("$gt", JsVal.num 5)])] k) ≠ .obj []))) ∧
        (∀ k, k ∈ keysOf t.own →
          lookupProp t.own k = lookupProp [("name", JsVal.str "a"), ("$or", JsVal.arr []),
            ("nested", JsVal.obj [("$gt", JsVal.num 5)])] k) ∧
        (∀ k, k ∈ keysOf t.own → k ∈ keysOf [("name", JsVal.str "a"), ("$or", JsVal.arr []),
            ("nested", JsVal.obj [("$gt", JsVal.num 5)])] ∧ k ≠ "__proto__") ∧
        ("__proto__" ∉ keysOf [("name", JsVal.str "a"), ("$or", JsVal.arr []),
            ("nested", JsVal.obj [("$gt", JsVal.num 5)])] →
          sanitizeMongoKeys (.obj [("name", JsVal.str "a"), ("$or", JsVal.arr []),
            ("nested", JsVal.obj [("$gt", JsVal.num 5)])]) = .obj t.own) :=
  ⟨by simp [keysNodup, keysOf], rfl,
    C7_keys_kept_with_original_values _ (by simp [keysNodup, keysOf])⟩

/-- C8, counterexample: for the query with the one own key `__proto__`, of value
`{$gt: 5, a: 1}`, the first result is an object without own key whose prototype is
that value; sanitizing it again walks the inherited keys and gives `{a: 1}`, which is
not the first result. -/
theorem C8_counterexample_proto_key_breaks_idempotence :
    sanitizeMongoKeys (.obj [("__proto__", .obj [("$gt", .num 5), ("a", .num 1)])])
        = .inst [("$gt", .num 5), ("a", .num 1)] ∧
      sanitizeMongoKeys (sanitizeMongoKeys
        (.obj [("__proto__", .obj [("$gt", .num 5), ("a", .num 1)])])) = .obj [("a", .num 1)] ∧
      sanitizeMongoKeys (sanitizeMongoKeys
        (.obj [("__proto__", .obj [("$gt", .num 5), ("a", .num 1)])])) ≠
        sanitizeMongoKeys (.obj [("__proto__", .obj [("$gt", .num 5), ("a", .num 1)])]) := by
  refine ⟨rfl, rfl, ?_⟩
  intro h
  have h2 : JsVal.obj [("a", JsVal.num 1)] = JsVal.inst [("$gt", .num 5), ("a", .num 1)] := h
  cases h2

/-- C8, amended: `sanitizeMongoKeys` is idempotent on every query value that has no
enumerable property named `__proto__`: sanitizing the result again gives the result. -/
theorem C8_sanitize_idempotent (q : JsVal) (hproto : "__proto__" ∉ keysOf (forIn q)) :
    sanitizeMongoKeys (sanitizeMongoKeys q) = sanitizeMongoKeys q := by
  have hcase := sanitize_cases q
  cases hpass : passesThrough q
  · rw [hpass] at hcase
    simp only [Bool.false_eq_true, if_false] at hcase
    rw [hcase, sanitize_finish_plain _ hproto, sanitizeMongoKeys,
      sanitizeProps_fixed _ hproto]
  · rw [hpass] at hcase
    simp only [if_true] at hcase
    rw [hcase, hcase]

/-- Witness of C8: `{name: "a", $or: [], nested: {$gt: 5}}` sanitizes to
`{name: "a"}`, and sanitizing `{name: "a"}` again gives `{name: "a"}`. -/
theorem C8_sanitize_idempotent_witness :
    "__proto__" ∉ keysOf (forIn (.obj [("name", JsVal.str "a"), ("$or", JsVal.arr []),
        ("nested", JsVal.obj [("$gt", JsVal.num 5)])])) ∧
      sanitizeMongoKeys (.obj [("name", .str "a"), ("$or", .arr []),
        ("nested", .obj [("$gt", .num 5)])]) = .obj [("name", .str "a")] ∧
      sanitizeMongoKeys (.obj [("name", .str "a")]) = .obj [("name", .str "a")] ∧
      sanitizeMongoKeys (sanitizeMongoKeys (.obj [("name", .str "a"), ("$or", .arr []),
          ("nested", .obj [("$gt", .num 5)])])) =
        sanitizeMongoKeys (.obj [("name", .str "a"), ("$or", .arr []),
          ("nested", .obj [("$gt", .num 5)])]) :=
  ⟨by simp [keysOf, forIn], rfl, rfl,
    C8_sanitize_idempotent _ (by simp [keysOf, forIn])⟩

/-- C9, counterexample: the array `[1]` is not a plain mapping, and
`sanitizeMongoKeys([1])` is the plain mapping `{"0": 1}`, not the array. -/
theorem C9_counterexample_array_is_rebuilt :
    isObject (.arr [.num 1]) = false ∧
      sanitizeMongoKeys (.arr [.num 1]) = .obj [("0", .num 1)] ∧
      sanitizeMongoKeys (.arr [.num 1]) ≠ .arr [.num 1] := by
  refine ⟨rfl, rfl, ?_⟩
  intro h
  have h2 : JsVal.obj [("0", JsVal.num 1)] = JsVal.arr [JsVal.num 1] := h
  cases h2

/-- C9, amended: a value that meets the guard of the first line (its type is not
`"object"`, or it is a date, or it is `null`) is returned unchanged; every other
value (a plain mapping, an array, any other object) is returned as the fresh object
that the loop over its enumerable properties builds. -/
theorem C9_guarded_values_pass_through (v : JsVal) :
    if passesThrough v = true then sanitizeMongoKeys v = v
    else sanitizeMongoKeys v = (sanitizeProps (forIn v) Target.empty).finish := by
  cases v <;>
    simp [passesThrough, typeofObject, instanceofDate, isNull, sanitizeMongoKeys, forIn,
      sanitizeElems_eq_props]

/-! ## Runs: counting operations -/

theorem countOf_nil {D : Type} (p : Event D → Bool) : countOf p [] = 0 := rfl

theorem countOf_cons {D : Type} (p : Event D → Bool) (e : Event D) (l : List (Event D)) :
    countOf p (e :: l) = (if p e then 1 else 0) + countOf p l := by
  unfold countOf
  rw [List.filter_cons]
  split <;> simp [Nat.add_comm]

theorem countOf_append {D : Type} (p : Event D → Bool) (l₁ l₂ : List (Event D)) :
    countOf p (l₁ ++ l₂) = countOf p l₁ + countOf p l₂ := by
  simp [countOf]

/-- A call of the callback is one completion, unless the callback cannot be called. -/
theorem countOf_completion_invoke {D : Type} (callback options err : JsVal)
    (result : Option D) (wasUpdated isNew : Bool)
    (hcb : truthy callback = false ∨ isFunction callback = true) :
    countOf Event.isCompletion (invoke callback options err result wasUpdated isNew) = 1 := by
  unfold invoke
  rcases hcb with h | h
  · simp only [h, Bool.not_false, if_true, deferredCallback]
    split
    · rfl
    · split <;> rfl
  · cases callback <;> simp [isFunction] at h
    simp [truthy, countOf, Event.isCompletion]

/-- A call of the callback is no operation on the collection or on a document. -/
theorem invoke_no_store_operation {D : Type} (callback options err : JsVal)
    (result : Option D) (wasUpdated isNew : Bool) :
    countOf Event.isConstruct (invoke callback options err result wasUpdated isNew) = 0 ∧
      countOf Event.isSet (invoke callback options err result wasUpdated isNew) = 0 ∧
      countOf Event.isSave (invoke callback options err result wasUpdated isNew) = 0 := by
  unfold invoke deferredCallback
  refine ⟨?_, ?_, ?_⟩ <;>
  · split
    · split
      · rfl
      · split <;> rfl
    · split <;> rfl

/-! ## The merge loop -/

theorem mergeLoop_nil {D : Type} (M : Collection D) (options : JsVal) (doc : D) :
    mergeLoop M options [] doc = (doc, []) := rfl

theorem mergeLoop_cons {D : Type} (M : Collection D) (options : JsVal) (field : String)
    (value : JsVal) (rest : Props) (doc : D) :
    mergeLoop M options ((field, value) :: rest) doc =
      ((mergeLoop M options rest
          (M.set doc field (mergedValue M options doc field value))).1,
        Event.set field (mergedValue M options doc field value) ::
          (mergeLoop M options rest
            (M.set doc field (mergedValue M options doc field value))).2) := rfl

/-- The loop calls `set` once for each field, in order, and does nothing else. -/
theorem mergeLoop_sets {D : Type} (M : Collection D) (options : JsVal) (fields : Props)
    (doc : D) :
    ((mergeLoop M options fields doc).2.filterMap Event.setArgs).map Prod.fst = keysOf fields ∧
      (mergeLoop M options fields doc).2.length = fields.length ∧
      countOf Event.isSet (mergeLoop M options fields doc).2 = fields.length ∧
      countOf Event.isConstruct (mergeLoop M options fields doc).2 = 0 ∧
      countOf Event.isSave (mergeLoop M options fields doc).2 = 0 ∧
      countOf Event.isCompletion (mergeLoop M options fields doc).2 = 0 := by
  induction fields generalizing doc with
  | nil => simp [mergeLoop_nil, keysOf, countOf]
  | cons p rest ih =>
    obtain ⟨field, value⟩ := p
    obtain ⟨h1, h2, h3, h4, h5, h6⟩ :=
      ih (M.set doc field (mergedValue M options doc field value))
    rw [mergeLoop_cons]
    simp only [countOf_cons, Event.isSet, Event.isConstruct, Event.isSave, Event.isCompletion,
      h3, h4, h5, h6, List.length_cons, h2]
    refine ⟨?_, trivial, by simp [Nat.add_comm], by simp, by simp, by simp⟩
    simp only [List.filterMap_cons, Event.setArgs, List.map_cons, keysOf] at h1 ⊢
    rw [h1]

/-- The event of the loop at position `i` is the `set` of field `i`, with the value
computed on the document as the fields before `i` left it. -/
theorem mergeLoop_event_at {D : Type} (M : Collection D) (options : JsVal) (fields : Props)
    (doc : D) (i : Nat) (hi : i < fields.length) :
    (mergeLoop M options fields doc).2[i]? =
      some (Event.set fields[i].1
        (mergedValue M options (mergeLoop M options (fields.take i) doc).1
          fields[i].1 fields[i].2)) := by
  induction fields generalizing doc i with
  | nil => simp at hi
  | cons p rest ih =>
    obtain ⟨field, value⟩ := p
    cases i with
    | zero => simp [mergeLoop_cons, mergeLoop_nil]
    | succ j =>
      have hj : j < rest.length := by simpa using hi
      simp only [mergeLoop_cons, List.getElem?_cons_succ, List.take_succ_cons,
        List.getElem_cons_succ]
      exact ih _ j hj

theorem mergedValue_append {D : Type} (M : Collection D) (options : JsVal) (doc : D)
    (field : String) (value : JsVal) (A : List JsVal) (harr : M.get doc field = .arr A)
    (hopt : truthy (getProp options "appendToArray") = true) :
    mergedValue M options doc field value = arrayConcat (.arr A) value := by
  simp [mergedValue, harr, hopt, isArray]

theorem mergedValue_plain {D : Type} (M : Collection D) (options : JsVal) (doc : D)
    (field : String) (value : JsVal)
    (h : truthy (getProp options "appendToArray") = false ∨ isArray (M.get doc field) = false) :
    mergedValue M options doc field value = value := by
  rcases h with h | h <;> simp [mergedValue, h]

/-- The merge step of the chain, in terms of the supplied fields. -/
theorem merge_step_eq {D : Type} (M : Collection D) (options additionalFields : JsVal)
    (doc : D) :
    (if truthy additionalFields then mergeLoop M options (forIn additionalFields) doc
      else (doc, [])) = mergeLoop M options (suppliedFields additionalFields) doc := by
  unfold suppliedFields
  split <;> rfl

/-- The chain when `findOne` resolves with no document. -/
theorem orchestrate_not_found {D : Type} (M : Collection D)
    (query additionalFields options callback : JsVal)
    (hfind : M.findOne query = Settled.resolved none) :
    orchestrate M query additionalFields options callback =
      Event.findOne query :: Event.construct (sanitizeMongoKeys query) ::
        ((mergeLoop M options (suppliedFields additionalFields)
            (M.construct (sanitizeMongoKeys query))).2 ++
          Event.isModified ::
          Event.save
            (mergeLoop M options (suppliedFields additionalFields)
              (M.construct (sanitizeMongoKeys query))).1
            (getProp options "saveOptions") ::
          (match M.save
              (mergeLoop M options (suppliedFields additionalFields)
                (M.construct (sanitizeMongoKeys query))).1
              (getProp options "saveOptions") with
            | .resolved _ =>
              invoke callback options .null
                (some (mergeLoop M options (suppliedFields additionalFields)
                  (M.construct (sanitizeMongoKeys query))).1) true true
            | .rejected reason => [Event.unhandledRejection reason])) := by
  unfold orchestrate
  simp only [hfind, Option.isSome_none, Bool.false_and, Bool.not_false, Bool.and_true,
    Bool.false_eq_true, if_false, merge_step_eq, List.cons_append, List.nil_append,
    List.singleton_append, Bool.not_true, Bool.and_false]

/-- The chain when `findOne` resolves with a document and the merge step is reached. -/
theorem orchestrate_found_merge {D : Type} (M : Collection D)
    (query additionalFields options callback : JsVal) (found : D)
    (hfind : M.findOne query = Settled.resolved (some found))
    (hfields : truthy additionalFields = true)
    (hsave : truthy (getProp options "saveIfFound") = true) :
    orchestrate M query additionalFields options callback =
      Event.findOne query ::
        ((mergeLoop M options (forIn additionalFields) found).2 ++
          Event.isModified ::
          (if M.isModified (mergeLoop M options (forIn additionalFields) found).1 = true then
            Event.save (mergeLoop M options (forIn additionalFields) found).1
                (getProp options "saveOptions") ::
              (match M.save (mergeLoop M options (forIn additionalFields) found).1
                  (getProp options "saveOptions") with
                | .resolved _ =>
                  invoke callback options .null
                    (some (mergeLoop M options (forIn additionalFields) found).1) true false
                | .rejected reason => [Event.unhandledRejection reason])
          else
            invoke callback options .null
              (some (mergeLoop M options (forIn additionalFields) found).1) false false)) := by
  unfold orchestrate
  simp only [hfind, hfields, hsave, Option.isSome_some, Bool.not_true, Bool.and_false,
    Bool.false_eq_true, if_false, if_true, Bool.and_true, List.nil_append, Bool.not_false]
  cases M.isModified (mergeLoop M options (forIn additionalFields) found).1 <;> simp


/-! ## The chain: claims C1 to C5 -/

/-- C1: when `findOne` resolves with no document, for every `additionalFields`,
options and callback, the run is: `findOne`, the construction of a document from
`sanitizeMongoKeys(query)`, one `set` for each field of `additionalFields`,
`isModified` (whose answer is not used), one `save` with `options.saveOptions`, and,
when `save` resolves, the report `(null, doc, true, true)`. -/
theorem C1_not_found_creates_and_saves {D : Type} (M : Collection D)
    (query additionalFields options callback : JsVal)
    (hfind : M.findOne query = Settled.resolved none) :
    orchestrate M query additionalFields options callback =
        Event.findOne query :: Event.construct (sanitizeMongoKeys query) ::
          ((mergeLoop M options (suppliedFields additionalFields)
              (M.construct (sanitizeMongoKeys query))).2 ++
            Event.isModified ::
            Event.save
              (mergeLoop M options (suppliedFields additionalFields)
                (M.construct (sanitizeMongoKeys query))).1
              (getProp options "saveOptions") ::
            (match M.save
                (mergeLoop M options (suppliedFields additionalFields)
                  (M.construct (sanitizeMongoKeys query))).1
                (getProp options "saveOptions") with
              | .resolved _ =>
                invoke callback options .null
                  (some (mergeLoop M options (suppliedFields additionalFields)
                    (M.construct (sanitizeMongoKeys query))).1) true true
              | .rejected reason => [Event.unhandledRejection reason])) ∧
      ((mergeLoop M options (suppliedFields additionalFields)
          (M.construct (sanitizeMongoKeys query))).2.filterMap Event.setArgs).map Prod.fst
        = keysOf (suppliedFields additionalFields) ∧
      countOf Event.isConstruct (orchestrate M query additionalFields options callback) = 1 ∧
      countOf Event.isSet (orchestrate M query additionalFields options callback)
        = (suppliedFields additionalFields).length ∧
      countOf Event.isSave (orchestrate M query additionalFields options callback) = 1 := by
  obtain ⟨h1, _, h3, h4, h5, _⟩ := mergeLoop_sets M options (suppliedFields additionalFields)
    (M.construct (sanitizeMongoKeys query))
  refine ⟨orchestrate_not_found M query additionalFields options callback hfind, h1, ?_, ?_, ?_⟩
  all_goals
    rw [orchestrate_not_found M query additionalFields options callback hfind]
    simp only [countOf_cons, countOf_append, Event.isConstruct, Event.isSet, Event.isSave,
      h3, h4, h5]
    cases M.save (mergeLoop M options (suppliedFields additionalFields)
        (M.construct (sanitizeMongoKeys query))).1 (getProp options "saveOptions") with
    | resolved u =>
      obtain ⟨i1, i2, i3⟩ := invoke_no_store_operation (D := D) callback options .null
        (some (mergeLoop M options (suppliedFields additionalFields)
          (M.construct (sanitizeMongoKeys query))).1) true true
      simp [i1, i2, i3]
    | rejected r => simp [countOf, Event.isConstruct, Event.isSet, Event.isSave]

/-- Witness of C1: the query `{email: "a@x.com"}` with no stored document and the
additional fields `{name: "A"}` builds and saves `{email: "a@x.com", name: "A"}` and
reports it with `wasUpdated = true`, `isNew = true`. -/
theorem C1_not_found_creates_and_saves_witness :
    (memCollection (.resolved none) (.resolved ())).findOne emailQuery
        = Settled.resolved none ∧
      orchestrate (memCollection (.resolved none) (.resolved ())) emailQuery nameFields
          defaultOptions (.func 1) =
        [Event.findOne emailQuery, Event.construct emailQuery,
          Event.set "name" (.str "A"), Event.isModified, Event.save emailNameDoc (.obj []),
          Event.callback 1 .null (some emailNameDoc) true true] :=
  ⟨rfl,
    (C1_not_found_creates_and_saves (memCollection (.resolved none) (.resolved ()))
      emailQuery nameFields defaultOptions (.func 1) rfl).1.trans rfl⟩

/-- C2: when `findOne` resolves with a document `D` and no additional fields are
supplied (the argument is `undefined`, or any falsy value), then for every options
the run is `findOne` followed by the report `(null, D, false, false)`: no document
is constructed, no field is set, nothing is saved. -/
theorem C2_found_without_fields {D : Type} (M : Collection D)
    (query additionalFields options callback : JsVal) (found : D)
    (hfind : M.findOne query = Settled.resolved (some found))
    (hnone : truthy additionalFields = false) :
    orchestrate M query additionalFields options callback =
        Event.findOne query :: invoke callback options .null (some found) false false ∧
      countOf Event.isConstruct (orchestrate M query additionalFields options callback) = 0 ∧
      countOf Event.isSet (orchestrate M query additionalFields options callback) = 0 ∧
      countOf Event.isSave (orchestrate M query additionalFields options callback) = 0 := by
  have h : orchestrate M query additionalFields options callback =
      Event.findOne query :: invoke callback options .null (some found) false false := by
    unfold orchestrate
    simp [hfind, hnone]
  obtain ⟨i1, i2, i3⟩ := invoke_no_store_operation (D := D) callback options .null
    (some found) false false
  refine ⟨h, ?_, ?_, ?_⟩ <;>
    simp [h, countOf_cons, Event.isConstruct, Event.isSet, Event.isSave, i1, i2, i3]

/-- Witness of C2: a stored document, no additional fields, `saveIfFound = true`. -/
theorem C2_found_without_fields_witness :
    (memCollection (.resolved (some storedNameDoc)) (.resolved ())).findOne emailQuery
        = Settled.resolved (some storedNameDoc) ∧
      truthy JsVal.undefined = false ∧
      orchestrate (memCollection (.resolved (some storedNameDoc)) (.resolved ())) emailQuery
          .undefined (optionsWith (.obj [("saveIfFound", .bool true)])) (.func 1) =
        [Event.findOne emailQuery, Event.callback 1 .null (some storedNameDoc) false false] :=
  ⟨rfl, rfl,
    (C2_found_without_fields (memCollection (.resolved (some storedNameDoc)) (.resolved ()))
      emailQuery .undefined (optionsWith (.obj [("saveIfFound", .bool true)])) (.func 1)
      storedNameDoc rfl rfl).1.trans rfl⟩

/-- C3: when `findOne` resolves with a document `D` and `options.saveIfFound` is
falsy, then for every `additionalFields` and whatever the other options are, the run is
`findOne` followed by the report `(null, D, false, false)`, with `D` as it was found:
no field is set, nothing is saved, no document is constructed. -/
theorem C3_found_not_saved_by_default {D : Type} (M : Collection D)
    (query additionalFields options callback : JsVal) (found : D)
    (hfind : M.findOne query = Settled.resolved (some found))
    (hsave : truthy (getProp options "saveIfFound") = false) :
    orchestrate M query additionalFields options callback =
        Event.findOne query :: invoke callback options .null (some found) false false ∧
      countOf Event.isSet (orchestrate M query additionalFields options callback) = 0 ∧
      countOf Event.isSave (orchestrate M query additionalFields options callback) = 0 ∧
      countOf Event.isConstruct (orchestrate M query additionalFields options callback) = 0 := by
  have h : orchestrate M query additionalFields options callback =
      Event.findOne query :: invoke callback options .null (some found) false false := by
    unfold orchestrate
    cases hf : truthy additionalFields <;> simp [hfind, hsave, hf]
  obtain ⟨i1, i2, i3⟩ := invoke_no_store_operation (D := D) callback options .null
    (some found) false false
  refine ⟨h, ?_, ?_, ?_⟩ <;>
    simp [h, countOf_cons, Event.isConstruct, Event.isSet, Event.isSave, i1, i2, i3]

/-- Witness of C3: a stored document `{tags: [1, 2]}`, additional fields
`{tags: [3]}`, and options with `appendToArray = true` and the default `saveIfFound`. -/
theorem C3_found_not_saved_by_default_witness :
    (memCollection (.resolved (some storedTagsDoc)) (.resolved ())).findOne emailQuery
        = Settled.resolved (some storedTagsDoc) ∧
      truthy (getProp (optionsWith (.obj [("appendToArray", .bool true)])) "saveIfFound")
        = false ∧
      orchestrate (memCollection (.resolved (some storedTagsDoc)) (.resolved ())) emailQuery
          tagsFields (optionsWith (.obj [("appendToArray", .bool true)])) (.func 1) =
        [Event.findOne emailQuery, Event.callback 1 .null (some storedTagsDoc) false false] :=
  ⟨rfl, rfl,
    (C3_found_not_saved_by_default
      (memCollection (.resolved (some storedTagsDoc)) (.resolved ())) emailQuery tagsFields
      (optionsWith (.obj [("appendToArray", .bool true)])) (.func 1) storedTagsDoc
      rfl rfl).1.trans rfl⟩


/-- C4: when `findOne` resolves with a document `D`, `saveIfFound` is truthy and
additional fields are supplied, every field of `additionalFields` is set on `D` (one
`set` per field, in order) and `isModified` is asked. If it answers `true`, `save` is
called once with `options.saveOptions` and the report, made when `save` resolves, is
`(null, D, true, false)`. If it answers `false`, `save` is not called and the report
is `(null, D, false, false)`. -/
theorem C4_found_merge_then_save_if_modified {D : Type} (M : Collection D)
    (query additionalFields options callback : JsVal) (found : D)
    (hfind : M.findOne query = Settled.resolved (some found))
    (hfields : truthy additionalFields = true)
    (hsave : truthy (getProp options "saveIfFound") = true) :
    ((mergeLoop M options (forIn additionalFields) found).2.filterMap Event.setArgs).map Prod.fst
        = keysOf (forIn additionalFields) ∧
      countOf Event.isSet (orchestrate M query additionalFields options callback)
        = (forIn additionalFields).length ∧
      (M.isModified (mergeLoop M options (forIn additionalFields) found).1 = true →
        orchestrate M query additionalFields options callback =
            Event.findOne query ::
              ((mergeLoop M options (forIn additionalFields) found).2 ++
                Event.isModified ::
                Event.save (mergeLoop M options (forIn additionalFields) found).1
                  (getProp options "saveOptions") ::
                (match M.save (mergeLoop M options (forIn additionalFields) found).1
                    (getProp options "saveOptions") with
                  | .resolved _ =>
                    invoke callback options .null
                      (some (mergeLoop M options (forIn additionalFields) found).1) true false
                  | .rejected reason => [Event.unhandledRejection reason])) ∧
          countOf Event.isSave (orchestrate M query additionalFields options callback) = 1) ∧
      (M.isModified (mergeLoop M options (forIn additionalFields) found).1 = false →
        orchestrate M query additionalFields options callback =
            Event.findOne query ::
              ((mergeLoop M options (forIn additionalFields) found).2 ++
                Event.isModified ::
                invoke callback options .null
                  (some (mergeLoop M options (forIn additionalFields) found).1) false false) ∧
          countOf Event.isSave (orchestrate M query additionalFields options callback) = 0) := by
  obtain ⟨h1, _, h3, _, h5, _⟩ := mergeLoop_sets M options (forIn additionalFields) found
  have hrun := orchestrate_found_merge M query additionalFields options callback found
    hfind hfields hsave
  refine ⟨h1, ?_, ?_, ?_⟩
  · rw [hrun]
    cases hmod : M.isModified (mergeLoop M options (forIn additionalFields) found).1
    · simp [countOf_cons, countOf_append, Event.isSet, h3,
        (invoke_no_store_operation (D := D) callback options
          .null (some (mergeLoop M options (forIn additionalFields) found).1) false false).2.1]
    · cases M.save (mergeLoop M options (forIn additionalFields) found).1
          (getProp options "saveOptions") with
      | resolved u =>
        simp [countOf_cons, countOf_append, Event.isSet, h3,
          (invoke_no_store_operation (D := D) callback options
            .null (some (mergeLoop M options (forIn additionalFields) found).1) true false).2.1]
      | rejected r => simp [countOf_cons, countOf_append, countOf_nil, Event.isSet, h3]
  · intro hmod
    rw [hrun]
    simp only [hmod, if_true, true_and]
    simp only [countOf_cons, countOf_append, Event.isSave, h5]
    cases M.save (mergeLoop M options (forIn additionalFields) found).1
        (getProp options "saveOptions") with
    | resolved u =>
      simp [(invoke_no_store_operation (D := D) callback options
        .null (some (mergeLoop M options (forIn additionalFields) found).1) true false).2.2]
    | rejected r => simp [countOf, Event.isSave]
  · intro hmod
    rw [hrun]
    simp only [hmod, Bool.false_eq_true, if_false, true_and]
    simp [countOf_cons, countOf_append, Event.isSave, h5,
      (invoke_no_store_operation (D := D) callback options
        .null (some (mergeLoop M options (forIn additionalFields) found).1) false false).2.2]

/-- Witness of C4: the stored document `{name: "A"}` with `saveIfFound = true`. Merging
`{name: "B"}` changes it: it is saved and reported with `wasUpdated = true`,
`isNew = false`. Merging `{name: "A"}` changes nothing: no save, `wasUpdated = false`. -/
theorem C4_found_merge_then_save_if_modified_witness :
    (memCollection (.resolved (some storedNameDoc)) (.resolved ())).findOne emailQuery
        = Settled.resolved (some storedNameDoc) ∧
      truthy (JsVal.obj [("name", JsVal.str "B")]) = true ∧
      truthy (getProp (optionsWith (.obj [("saveIfFound", .bool true)])) "saveIfFound")
        = true ∧
      orchestrate (memCollection (.resolved (some storedNameDoc)) (.resolved ())) emailQuery
          (.obj [("name", .str "B")]) (optionsWith (.obj [("saveIfFound", .bool true)]))
          (.func 1) =
        [Event.findOne emailQuery, Event.set "name" (.str "B"), Event.isModified,
          Event.save { fields := [("name", .str "B")], dirty := true } (.obj []),
          Event.callback 1 .null (some { fields := [("name", .str "B")], dirty := true })
            true false] ∧
      orchestrate (memCollection (.resolved (some storedNameDoc)) (.resolved ())) emailQuery
          nameFields (optionsWith (.obj [("saveIfFound", .bool true)])) (.func 1) =
        [Event.findOne emailQuery, Event.set "name" (.str "A"), Event.isModified,
          Event.callback 1 .null (some storedNameDoc) false false] :=
  ⟨rfl, rfl, rfl,
    ((C4_found_merge_then_save_if_modified
      (memCollection (.resolved (some storedNameDoc)) (.resolved ())) emailQuery
      (.obj [("name", .str "B")]) (optionsWith (.obj [("saveIfFound", .bool true)])) (.func 1)
      storedNameDoc rfl rfl rfl).2.2.1 rfl).1.trans rfl,
    ((C4_found_merge_then_save_if_modified
      (memCollection (.resolved (some storedNameDoc)) (.resolved ())) emailQuery
      nameFields (optionsWith (.obj [("saveIfFound", .bool true)])) (.func 1)
      storedNameDoc rfl rfl rfl).2.2.2 rfl).1.trans rfl⟩

/-- C5: in the merge loop, the `set` made for field number `i` of the additional
fields, `F` with supplied value `V`, is as follows, where the current value is the one
the document has when the loop reaches `F`. If the current value at `F` is an array `A`
and `appendToArray` is truthy, `F` is set to `A.concat(V)`. If `appendToArray` is falsy
or the current value is not an array, `F` is set to `V` itself. -/
theorem C5_merge_sets_concat_or_value {D : Type} (M : Collection D) (options : JsVal)
    (fields : Props) (doc : D) (i : Nat) (hi : i < fields.length) :
    ∃ value, (mergeLoop M options fields doc).2[i]? = some (Event.set fields[i].1 value) ∧
      (∀ A, M.get (mergeLoop M options (fields.take i) doc).1 fields[i].1 = .arr A →
        truthy (getProp options "appendToArray") = true →
        value = arrayConcat (.arr A) fields[i].2) ∧
      ((truthy (getProp options "appendToArray") = false ∨
          isArray (M.get (mergeLoop M options (fields.take i) doc).1 fields[i].1) = false) →
        value = fields[i].2) :=
  ⟨_, mergeLoop_event_at M options fields doc i hi,
    fun A harr hopt => mergedValue_append M options _ _ _ A harr hopt,
    fun h => mergedValue_plain M options _ _ _ h⟩

/-- Witness of C5: the stored `{tags: [1, 2]}` merged with `{tags: [3]}` sets `tags`
to `[1, 2, 3]` when `appendToArray = true` and to `[3]` when it is `false`. -/
theorem C5_merge_sets_concat_or_value_witness :
    0 < (forIn tagsFields).length ∧
      (mergeLoop (memCollection (.resolved (some storedTagsDoc)) (.resolved ()))
          (optionsWith (.obj [("appendToArray", .bool true)])) (forIn tagsFields)
          storedTagsDoc).2[0]? = some (Event.set "tags" (.arr [.num 1, .num 2, .num 3])) ∧
      (mergeLoop (memCollection (.resolved (some storedTagsDoc)) (.resolved ()))
          (optionsWith .undefined) (forIn tagsFields)
          storedTagsDoc).2[0]? = some (Event.set "tags" (.arr [.num 3])) := by
  refine ⟨by decide, ?_, ?_⟩
  · obtain ⟨value, hset, happend, _⟩ := C5_merge_sets_concat_or_value
      (memCollection (.resolved (some storedTagsDoc)) (.resolved ()))
      (optionsWith (.obj [("appendToArray", .bool true)])) (forIn tagsFields) storedTagsDoc 0
      (by decide)
    rw [hset, happend [.num 1, .num 2] rfl rfl]
    rfl
  · obtain ⟨value, hset, _, hplain⟩ := C5_merge_sets_concat_or_value
      (memCollection (.resolved (some storedTagsDoc)) (.resolved ()))
      (optionsWith .undefined) (forIn tagsFields) storedTagsDoc 0 (by decide)
    rw [hset, hplain (Or.inl rfl)]
    rfl

/-! ## Completion: claim C10 -/

/-- A call of the callback leaves no rejection unhandled, when the callback can be
called. -/
theorem countOf_unhandled_invoke {D : Type} (callback options err : JsVal)
    (result : Option D) (wasUpdated isNew : Bool)
    (hcb : truthy callback = false ∨ isFunction callback = true) :
    countOf Event.isUnhandled (invoke callback options err result wasUpdated isNew) = 0 := by
  unfold invoke
  rcases hcb with h | h
  · simp only [h, Bool.not_false, if_true, deferredCallback]
    split
    · rfl
    · split <;> rfl
  · cases callback <;> simp [isFunction] at h
    simp [truthy, countOf, Event.isUnhandled]

theorem mergeLoop_no_unhandled {D : Type} (M : Collection D) (options : JsVal) (fields : Props)
    (doc : D) : countOf Event.isUnhandled (mergeLoop M options fields doc).2 = 0 := by
  induction fields generalizing doc with
  | nil => rfl
  | cons p rest ih =>
    obtain ⟨field, value⟩ := p
    rw [mergeLoop_cons]
    simp [countOf_cons, Event.isUnhandled, ih]

/-- Every run ends in exactly one of: a notification of the caller, or an unhandled
rejection. -/
theorem run_ends_once {D : Type} (M : Collection D)
    (query additionalFields options callback : JsVal)
    (hcb : truthy callback = false ∨ isFunction callback = true) :
    countOf Event.isCompletion (orchestrate M query additionalFields options callback) +
      countOf Event.isUnhandled (orchestrate M query additionalFields options callback) = 1 := by
  have hc := fun err (result : Option D) wasUpdated isNew =>
    countOf_completion_invoke callback options err result wasUpdated isNew hcb
  have hu := fun err (result : Option D) wasUpdated isNew =>
    countOf_unhandled_invoke callback options err result wasUpdated isNew hcb
  unfold orchestrate
  cases hfind : M.findOne query with
  | rejected err => simp [countOf_cons, Event.isCompletion, Event.isUnhandled, hc, hu]
  | resolved result =>
    cases result with
    | none =>
      simp only [Option.isSome_none, Bool.false_and, Bool.false_eq_true, if_false,
        Bool.not_false, Bool.not_true, Bool.and_false, merge_step_eq]
      have h6 := (mergeLoop_sets M options (suppliedFields additionalFields)
        (M.construct (sanitizeMongoKeys query))).2.2.2.2.2
      have h7 := mergeLoop_no_unhandled M options (suppliedFields additionalFields)
        (M.construct (sanitizeMongoKeys query))
      cases M.save (mergeLoop M options (suppliedFields additionalFields)
          (M.construct (sanitizeMongoKeys query))).1 (getProp options "saveOptions") <;>
        simp [countOf_cons, countOf_append, countOf_nil, Event.isCompletion, Event.isUnhandled,
          hc, hu, h6, h7]
    | some found =>
      cases hf : truthy additionalFields
      · simp [countOf_cons, Event.isCompletion, Event.isUnhandled, hc, hu]
      · cases hs : truthy (getProp options "saveIfFound")
        · simp [countOf_cons, Event.isCompletion, Event.isUnhandled, hc, hu]
        · have h6 := (mergeLoop_sets M options (forIn additionalFields) found).2.2.2.2.2
          have h7 := mergeLoop_no_unhandled M options (forIn additionalFields) found
          cases hmod : M.isModified (mergeLoop M options (forIn additionalFields) found).1
          · simp [hmod, countOf_cons, countOf_append, Event.isCompletion, Event.isUnhandled,
              hc, hu, h6, h7]
          · cases hsv : M.save (mergeLoop M options (forIn additionalFields) found).1
                (getProp options "saveOptions") <;>
              simp [hmod, hsv, countOf_cons, countOf_append, countOf_nil, Event.isCompletion,
                Event.isUnhandled, hc, hu, h6, h7]

/-- C10, at the failing input: `findOne` resolves with no document and `save` rejects
with `"E"`. The run ends with the unhandled rejection of `"E"`: in callback style the
callback is never invoked, in promise style the returned promise is never settled. -/
theorem C10_save_rejection_never_notifies :
    (findOrCreate (memCollection (.resolved none) (.rejected (.str "E"))) .undefined
        emailQuery nameFields .undefined (.func 1)).events =
      [Event.findOne emailQuery, Event.construct emailQuery, Event.set "name" (.str "A"),
        Event.isModified, Event.save emailNameDoc (.obj []),
        Event.unhandledRejection (.str "E")] ∧
    countOf Event.isCompletion
      (findOrCreate (memCollection (.resolved none) (.rejected (.str "E"))) .undefined
        emailQuery nameFields .undefined (.func 1)).events = 0 ∧
    (findOrCreate (memCollection (.resolved none) (.rejected (.str "E"))) .undefined
        emailQuery nameFields .undefined .undefined).returnsPromise = true ∧
    countOf Event.isCompletion
      (findOrCreate (memCollection (.resolved none) (.rejected (.str "E"))) .undefined
        emailQuery nameFields .undefined .undefined).events = 0 :=
  ⟨rfl, rfl, rfl, rfl⟩



/-! ## Failure of the search: claim C11 -/

/-- C11: when `findOne` fails with an error `E` (an error object, hence a truthy
value), a callback-style caller receives exactly `(E, null, false, false)`, a
promise-style caller receives a promise rejected with `E` itself, and in either style
no document is constructed, set or saved. -/
theorem C11_find_failure_is_reported {D : Type} (M : Collection D)
    (query additionalFields options callback E : JsVal) (fn : Nat)
    (hfind : M.findOne query = Settled.rejected E) (herror : truthy E = true) :
    orchestrate M query additionalFields options (.func fn) =
        [Event.findOne query, Event.callback fn E none false false] ∧
      (truthy callback = false →
        orchestrate M query additionalFields options callback =
          [Event.findOne query, Event.reject E]) ∧
      countOf Event.isConstruct (orchestrate M query additionalFields options callback) = 0 ∧
      countOf Event.isSet (orchestrate M query additionalFields options callback) = 0 ∧
      countOf Event.isSave (orchestrate M query additionalFields options callback) = 0 := by
  have hrun : ∀ cb, orchestrate M query additionalFields options cb =
      Event.findOne query :: invoke cb options E none false false := by
    intro cb
    unfold orchestrate
    simp [hfind]
  obtain ⟨i1, i2, i3⟩ := invoke_no_store_operation (D := D) callback options E none false false
  refine ⟨?_, ?_, ?_, ?_, ?_⟩
  · rw [hrun]
    simp [invoke, truthy]
  · intro hcb
    rw [hrun]
    simp [invoke, deferredCallback, hcb, herror]
  · simp [hrun, countOf_cons, Event.isConstruct, i1]
  · simp [hrun, countOf_cons, Event.isSet, i2]
  · simp [hrun, countOf_cons, Event.isSave, i3]

/-- Witness of C11: `findOne` rejects with an error object. -/
theorem C11_find_failure_is_reported_witness :
    (memCollection (.rejected (.inst [("message", .str "boom")])) (.resolved ())).findOne
        emailQuery = Settled.rejected (.inst [("message", .str "boom")]) ∧
      truthy (JsVal.inst [("message", .str "boom")]) = true ∧
      orchestrate (memCollection (.rejected (.inst [("message", .str "boom")])) (.resolved ()))
          emailQuery nameFields defaultOptions (.func 1) =
        [Event.findOne emailQuery,
          Event.callback 1 (.inst [("message", .str "boom")]) none false false] ∧
      orchestrate (memCollection (.rejected (.inst [("message", .str "boom")])) (.resolved ()))
          emailQuery nameFields defaultOptions .undefined =
        [Event.findOne emailQuery, Event.reject (.inst [("message", .str "boom")])] :=
  ⟨rfl, rfl,
    (C11_find_failure_is_reported
      (memCollection (.rejected (.inst [("message", .str "boom")])) (.resolved ()))
      emailQuery nameFields defaultOptions .undefined (.inst [("message", .str "boom")]) 1
      rfl rfl).1,
    (C11_find_failure_is_reported
      (memCollection (.rejected (.inst [("message", .str "boom")])) (.resolved ()))
      emailQuery nameFields defaultOptions .undefined (.inst [("message", .str "boom")]) 1
      rfl rfl).2.1 rfl⟩

/-! ## Argument resolution: claim C12 -/

/-- C12, counterexample: with a callable second argument the third argument still
counts. In `findOrCreate(query, f1, f2)` the callback invoked is `f2`, not `f1`; in
`findOrCreate(query, f1, {saveOptions: {w: 1}})` the callback is `f1` and `save` is
called with `{w: 1}`, the third argument having been merged into the options. -/
theorem C12_counterexample_third_argument_counts :
    (findOrCreate (memCollection (.resolved none) (.resolved ())) .undefined
        emailQuery (.func 1) (.func 2) .undefined).events =
      [Event.findOne emailQuery, Event.construct emailQuery, Event.isModified,
        Event.save { fields := [("email", .str "a@x.com")], dirty := false } (.obj []),
        Event.callback 2 .null (some { fields := [("email", .str "a@x.com")], dirty := false })
          true true] ∧
    (findOrCreate (memCollection (.resolved none) (.resolved ())) .undefined
        emailQuery (.func 1) (.obj [("saveOptions", .obj [("w", .num 1)])]) .undefined).events =
      [Event.findOne emailQuery, Event.construct emailQuery, Event.isModified,
        Event.save { fields := [("email", .str "a@x.com")], dirty := false }
          (.obj [("w", .num 1)]),
        Event.callback 1 .null (some { fields := [("email", .str "a@x.com")], dirty := false })
          true true] :=
  ⟨rfl, rfl⟩

/-- C12, amended: the two tests are independent. The call runs the chain with the
resolved fields, options and callback, where: the additional fields are absent when
the second argument is callable and are the second argument otherwise; the context
options are absent when the third argument is callable and are the third argument
otherwise (also when the second is callable); the callback is the third argument when
that is callable, else the second when that is callable, else the fourth. -/
theorem C12_argument_resolution {D : Type} (M : Collection D)
    (modelOptions query a2 a3 a4 : JsVal) :
    (findOrCreate M modelOptions query a2 a3 a4).events =
        orchestrate M query (resolvedFields a2)
          (mergeOptions modelOptions (resolvedContextOptions a3)) (resolvedCallback a2 a3 a4) ∧
      (findOrCreate M modelOptions query a2 a3 a4).returnsPromise
        = !truthy (resolvedCallback a2 a3 a4) ∧
      (if isFunction a2 = true then resolvedFields a2 = .undefined else resolvedFields a2 = a2) ∧
      (if isFunction a3 = true then
          resolvedContextOptions a3 = .undefined ∧ resolvedCallback a2 a3 a4 = a3
        else
          resolvedContextOptions a3 = a3 ∧
            (if isFunction a2 = true then resolvedCallback a2 a3 a4 = a2
              else resolvedCallback a2 a3 a4 = a4)) := by
  refine ⟨rfl, rfl, ?_, ?_⟩
  · unfold resolvedFields
    split <;> simp_all
  · unfold resolvedContextOptions resolvedCallback
    cases isFunction a3 <;> cases isFunction a2 <;> simp


/-! ## Options: claim C13 -/

theorem lookupProp_setProp (t : Props) (k : String) (v : JsVal) (n : String) :
    lookupProp (setProp t k v) n = if k = n then v else lookupProp t n := by
  induction t with
  | nil => simp [setProp, lookupProp]
  | cons p rest ih =>
    obtain ⟨k', v'⟩ := p
    by_cases hk : k' = k
    · subst hk
      by_cases hn : k' = n <;> simp [setProp, lookupProp, hn]
    · by_cases hn : k' = n
      · subst hn
        have : ¬ k = k' := fun e => hk e.symm
        simp [setProp, lookupProp, hk, this]
      · simp [setProp, lookupProp, hk, hn, ih]

/-- Reading a key after a run of writes from a well-formed source: the value of the
source when it has the key, the value of the target otherwise. -/
theorem lookupProp_assign (source target : Props) (n : String) (h : keysNodup source) :
    lookupProp (source.foldl (fun t p => setProp t p.1 p.2) target) n =
      if hasKey source n = true then lookupProp source n else lookupProp target n := by
  induction source generalizing target with
  | nil => simp [hasKey]
  | cons p rest ih =>
    obtain ⟨k, v⟩ := p
    have hrest : keysNodup rest := by
      unfold keysNodup keysOf at *
      exact (List.nodup_cons.mp h).2
    have hk : k ∉ keysOf rest := by
      unfold keysNodup keysOf at h
      exact (List.nodup_cons.mp h).1
    have hcons : hasKey ((k, v) :: rest) n = (k == n || hasKey rest n) := rfl
    rw [List.foldl_cons, ih _ hrest, lookupProp_setProp, hcons]
    by_cases hn : k = n
    · subst hn
      have hno : hasKey rest k = false := by
        cases hh : hasKey rest k
        · rfl
        · exact absurd ((hasKey_iff_mem rest k).mp hh) hk
      simp [hno, lookupProp]
    · have hn' : (k == n) = false := by simpa using hn
      simp only [hn', Bool.false_or, hn, if_false, lookupProp]

/-- An `Object.assign` from a source without the key `__proto__` writes own
properties only. -/
theorem assignFrom_plain (target : Target) (source : JsVal)
    (h : "__proto__" ∉ keysOf (forIn source)) :
    (assignFrom target source).own =
        (forIn source).foldl (fun t p => setProp t p.1 p.2) target.own ∧
      (assignFrom target source).proto = target.proto := by
  unfold assignFrom
  rw [foldl_assignKey_plain _ _ h]
  exact ⟨rfl, rfl⟩

/-- C13, counterexample: the call-site options `{"__proto__": {"status": true}}` (an
own key, as `JSON.parse` gives) do not have the name `status`, nor do the model
options or the defaults, yet the effective `status` is `true`: `Object.assign`
assigns `__proto__` to its target, which makes the value the prototype of the
effective options, and `options.status` is read from it. The promise of such a call
resolves with the envelope. -/
theorem C13_counterexample_proto_key_feeds_options :
    hasKey (forIn (.obj [("__proto__", .obj [("status", .bool true)])])) "status" = false ∧
      hasKey (forIn JsVal.undefined) "status" = false ∧
      getProp defaultOptions "status" = .undefined ∧
      getProp (mergeOptions .undefined (.obj [("__proto__", .obj [("status", .bool true)])]))
        "status" = .bool true ∧
      (findOrCreate (memCollection (.resolved none) (.resolved ())) .undefined emailQuery
          nameFields (.obj [("__proto__", .obj [("status", .bool true)])]) .undefined).events =
        [Event.findOne emailQuery, Event.construct emailQuery,
          Event.set "name" (.str "A"), Event.isModified, Event.save emailNameDoc (.obj []),
          Event.resolve (Resolution.envelope (some emailNameDoc) true true)] :=
  ⟨rfl, rfl, rfl, rfl, rfl⟩

/-- C13, amended: for option records without an own key `__proto__` and for every
option name `N`, the value that `findOrCreate` uses is the one of the call-site
`contextOptions` when that has `N`, else the one of the model-level `modelOptions`
when that has `N`, else the hardcoded default, which is `appendToArray = false`,
`saveOptions = {}`, `saveIfFound = false` and no `status`. -/
theorem C13_option_precedence (modelOptions contextOptions : JsVal) (N : String)
    (hmodel : keysNodup (forIn modelOptions)) (hcontext : keysNodup (forIn contextOptions))
    (hmodelProto : "__proto__" ∉ keysOf (forIn modelOptions))
    (hcontextProto : "__proto__" ∉ keysOf (forIn contextOptions)) :
    getProp (mergeOptions modelOptions contextOptions) N =
        (if hasKey (forIn contextOptions) N = true then getProp contextOptions N
          else if hasKey (forIn modelOptions) N = true then getProp modelOptions N
          else getProp defaultOptions N) ∧
      getProp defaultOptions "appendToArray" = .bool false ∧
      getProp defaultOptions "saveOptions" = .obj [] ∧
      getProp defaultOptions "saveIfFound" = .bool false ∧
      getProp defaultOptions "status" = .undefined := by
  refine ⟨?_, rfl, rfl, rfl, rfl⟩
  have hdef : assignFrom Target.empty defaultOptions
      = { own := forIn defaultOptions, proto := none } := rfl
  obtain ⟨hm1, hm2⟩ := assignFrom_plain (assignFrom Target.empty defaultOptions) modelOptions
    hmodelProto
  obtain ⟨hc1, hc2⟩ := assignFrom_plain
    (assignFrom (assignFrom Target.empty defaultOptions) modelOptions) contextOptions
    hcontextProto
  have hproto : (assignFrom (assignFrom (assignFrom Target.empty defaultOptions) modelOptions)
      contextOptions).proto = none := by
    rw [hc2, hm2, hdef]
  unfold mergeOptions
  rw [finish_of_proto_none _ hproto]
  show lookupProp (assignFrom (assignFrom (assignFrom Target.empty defaultOptions)
    modelOptions) contextOptions).own N = _
  rw [hc1, hm1, hdef]
  unfold getProp
  rw [lookupProp_assign _ _ _ hcontext, lookupProp_assign _ _ _ hmodel]

/-- Witness of C13: the model sets `saveIfFound` and `status`, the call sets `status`
and `appendToArray`. -/
theorem C13_option_precedence_witness :
    keysNodup (forIn (.obj [("saveIfFound", .bool true), ("status", .bool true)])) ∧
      keysNodup (forIn (.obj [("status", .bool false), ("appendToArray", .bool true)])) ∧
      "__proto__" ∉ keysOf (forIn (.obj [("saveIfFound", .bool true), ("status", .bool true)])) ∧
      "__proto__" ∉
        keysOf (forIn (.obj [("status", .bool false), ("appendToArray", .bool true)])) ∧
      getProp (mergeOptions (.obj [("saveIfFound", .bool true), ("status", .bool true)])
          (.obj [("status", .bool false), ("appendToArray", .bool true)])) "status"
        = .bool false ∧
      getProp (mergeOptions (.obj [("saveIfFound", .bool true), ("status", .bool true)])
          (.obj [("status", .bool false), ("appendToArray", .bool true)])) "saveIfFound"
        = .bool true ∧
      getProp (mergeOptions (.obj [("saveIfFound", .bool true), ("status", .bool true)])
          (.obj [("status", .bool false), ("appendToArray", .bool true)])) "saveOptions"
        = .obj [] :=
  ⟨by simp [keysNodup, keysOf, forIn], by simp [keysNodup, keysOf, forIn],
    by simp [keysOf, forIn], by simp [keysOf, forIn],
    (C13_option_precedence _ _ "status" (by simp [keysNodup, keysOf, forIn])
      (by simp [keysNodup, keysOf, forIn]) (by simp [keysOf, forIn])
      (by simp [keysOf, forIn])).1.trans rfl,
    (C13_option_precedence _ _ "saveIfFound" (by simp [keysNodup, keysOf, forIn])
      (by simp [keysNodup, keysOf, forIn]) (by simp [keysOf, forIn])
      (by simp [keysOf, forIn])).1.trans rfl,
    (C13_option_precedence _ _ "saveOptions" (by simp [keysNodup, keysOf, forIn])
      (by simp [keysNodup, keysOf, forIn]) (by simp [keysOf, forIn])
      (by simp [keysOf, forIn])).1.trans rfl⟩

/-! ## The status envelope: claim C14 -/

/-- C14: in a promise-style call (no callback was supplied) a successful report
`(null, result, wasUpdated, isNew)` resolves the promise, with the envelope
`{result, wasUpdated, isNew}` of exactly these three values when `options.status` is
truthy, and with the bare `result` when it is falsy or absent. -/
theorem C14_status_envelope {D : Type} (options callback : JsVal) (result : Option D)
    (wasUpdated isNew : Bool) (hcb : truthy callback = false) :
    invoke callback options .null result wasUpdated isNew =
      [Event.resolve
        (if truthy (getProp options "status") = true
          then Resolution.envelope result wasUpdated isNew
          else Resolution.bare result)] := by
  have hnull : ¬ truthy JsVal.null = true := by simp [truthy]
  unfold invoke deferredCallback
  rw [if_pos (by rw [hcb]; rfl), if_neg hnull]
  split <;> rfl

/-- Witness of C14: the scenario of C1 in promise style, with `status = true` and
without it. -/
theorem C14_status_envelope_witness :
    truthy JsVal.undefined = false ∧
      invoke .undefined (optionsWith (.obj [("status", .bool true)])) .null
          (some emailNameDoc) true true =
        [Event.resolve (Resolution.envelope (some emailNameDoc) true true)] ∧
      (findOrCreate (memCollection (.resolved none) (.resolved ())) .undefined emailQuery
          nameFields (.obj [("status", .bool true)]) .undefined).events =
        [Event.findOne emailQuery, Event.construct emailQuery,
          Event.set "name" (.str "A"), Event.isModified, Event.save emailNameDoc (.obj []),
          Event.resolve (Resolution.envelope (some emailNameDoc) true true)] ∧
      (findOrCreate (memCollection (.resolved none) (.resolved ())) .undefined emailQuery
          nameFields .undefined .undefined).events =
        [Event.findOne emailQuery, Event.construct emailQuery,
          Event.set "name" (.str "A"), Event.isModified, Event.save emailNameDoc (.obj []),
          Event.resolve (Resolution.bare (some emailNameDoc))] :=
  ⟨rfl,
    (C14_status_envelope (optionsWith (.obj [("status", .bool true)])) .undefined
      (some emailNameDoc) true true rfl).trans rfl,
    rfl, rfl⟩


/-! ## Shape of a run -/

/-- The events of the merge loop are `set` calls. -/
theorem mergeLoop_mem_isSet {D : Type} (M : Collection D) (options : JsVal) (fields : Props)
    (doc : D) (e : Event D) (h : e ∈ (mergeLoop M options fields doc).2) : e.isSet = true := by
  induction fields generalizing doc with
  | nil => simp [mergeLoop_nil] at h
  | cons p rest ih =>
    obtain ⟨field, value⟩ := p
    rw [mergeLoop_cons] at h
    rcases List.mem_cons.mp h with h | h
    · subst h; rfl
    · exact ih _ h

/-- A call of the callback adds one event, which is a notification or the unhandled
error of a callback that cannot be called. -/
theorem mem_invoke {D : Type} (callback options err : JsVal) (result : Option D)
    (wasUpdated isNew : Bool) (e : Event D)
    (h : e ∈ invoke callback options err result wasUpdated isNew) :
    e.isCompletion = true ∨ e = Event.unhandledRejection typeError := by
  unfold invoke deferredCallback at h
  split at h
  · split at h
    · simp at h; subst h; exact Or.inl rfl
    · split at h <;> (simp at h; subst h; exact Or.inl rfl)
  · split at h
    · simp at h; subst h; exact Or.inl rfl
    · simp at h; exact Or.inr h

/-- The promise-style reading leaves the `set` calls of the merge loop as they are. -/
theorem promiseView_mergeLoop {D : Type} (M : Collection D) (options o : JsVal)
    (fields : Props) (doc : D) :
    promiseView o (mergeLoop M options fields doc).2 = (mergeLoop M options fields doc).2 := by
  induction fields generalizing doc with
  | nil => rfl
  | cons p rest ih =>
    obtain ⟨field, value⟩ := p
    rw [mergeLoop_cons]
    simp only [promiseView, settleWith, List.singleton_append, ih]

theorem promiseView_append {D : Type} (o : JsVal) (l₁ l₂ : List (Event D)) :
    promiseView o (l₁ ++ l₂) = promiseView o l₁ ++ promiseView o l₂ := by
  induction l₁ with
  | nil => rfl
  | cons e rest ih => simp [promiseView, ih]

theorem invoke_func {D : Type} (options err : JsVal) (fn : Nat) (result : Option D)
    (wasUpdated isNew : Bool) :
    invoke (.func fn) options err result wasUpdated isNew =
      [Event.callback fn err result wasUpdated isNew] := rfl

theorem invoke_falsy {D : Type} (callback options err : JsVal) (result : Option D)
    (wasUpdated isNew : Bool) (hcb : truthy callback = false) :
    invoke callback options err result wasUpdated isNew =
      deferredCallback options err result wasUpdated isNew := by
  unfold invoke
  rw [if_pos (by rw [hcb]; rfl)]

theorem storeOperations_cons {D : Type} (e : Event D) (l : List (Event D)) :
    storeOperations (e :: l) = if e.isCompletion = true then storeOperations l
      else e :: storeOperations l := by
  unfold storeOperations
  rw [List.filter_cons]
  cases e.isCompletion <;> simp

theorem storeOperations_append {D : Type} (l₁ l₂ : List (Event D)) :
    storeOperations (l₁ ++ l₂) = storeOperations l₁ ++ storeOperations l₂ := by
  simp [storeOperations]

/-- A call of the callback is no operation on the store, when the callback can be
called. -/
theorem storeOperations_invoke {D : Type} (callback options err : JsVal) (result : Option D)
    (wasUpdated isNew : Bool) (hcb : truthy callback = false ∨ isFunction callback = true) :
    storeOperations (invoke callback options err result wasUpdated isNew) = [] := by
  unfold invoke
  rcases hcb with h | h
  · simp only [h, Bool.not_false, if_true, deferredCallback]
    split
    · rfl
    · split <;> rfl
  · cases callback <;> simp [isFunction] at h
    simp [truthy, storeOperations, Event.isCompletion]

/-! ## The two styles: claim C15 -/

/-- C15: for the same query, additional fields, options and collaborators, the
promise-style call (no callback) is the callback-style call with each call of the
callback replaced by what the synthesized callback does with the same
`(err, result, wasUpdated, isNew)`; the two calls perform the same sequence of
operations on the collection and the document; and with `status` on, a success
reported to the callback as `(null, result, wasUpdated, isNew)` resolves the promise
with the envelope of the same three values. -/
theorem C15_callback_and_promise_agree {D : Type} (M : Collection D)
    (modelOptions query additionalFields contextOptions callback : JsVal) (fn : Nat)
    (hfields : isFunction additionalFields = false)
    (hcontext : isFunction contextOptions = false)
    (hcb : truthy callback = false) :
    (findOrCreate M modelOptions query additionalFields contextOptions callback).events =
        promiseView (mergeOptions modelOptions contextOptions)
          (findOrCreate M modelOptions query additionalFields contextOptions (.func fn)).events ∧
      storeOperations
          (findOrCreate M modelOptions query additionalFields contextOptions callback).events =
        storeOperations
          (findOrCreate M modelOptions query additionalFields contextOptions (.func fn)).events ∧
      (∀ (result : Option D) (wasUpdated isNew : Bool),
        truthy (getProp (mergeOptions modelOptions contextOptions) "status") = true →
        settleWith (mergeOptions modelOptions contextOptions)
            (Event.callback fn .null result wasUpdated isNew) =
          [Event.resolve (Resolution.envelope result wasUpdated isNew)]) := by
  have hcall : ∀ cb, (findOrCreate M modelOptions query additionalFields contextOptions cb).events
      = orchestrate M query additionalFields (mergeOptions modelOptions contextOptions) cb := by
    intro cb
    simp [findOrCreate, hfields, hcontext]
  have hp := fun err (result : Option D) wasUpdated isNew =>
    invoke_falsy callback (mergeOptions modelOptions contextOptions) err result
      wasUpdated isNew hcb
  have hs1 := fun err (result : Option D) wasUpdated isNew =>
    storeOperations_invoke callback (mergeOptions modelOptions contextOptions) err result
      wasUpdated isNew (Or.inl hcb)
  have hs2 := fun err (result : Option D) wasUpdated isNew =>
    storeOperations_invoke (.func fn) (mergeOptions modelOptions contextOptions) err result
      wasUpdated isNew (Or.inr rfl)
  refine ⟨?_, ?_, ?_⟩
  · rw [hcall, hcall]
    unfold orchestrate
    cases hfind : M.findOne query with
    | rejected err => simp [promiseView, settleWith, hp, invoke_func]
    | resolved result =>
      cases result with
      | none =>
        simp only [Option.isSome_none, Bool.false_and, Bool.false_eq_true, if_false,
          Bool.not_false, Bool.not_true, Bool.and_false, merge_step_eq]
        cases hsv : M.save (mergeLoop M (mergeOptions modelOptions contextOptions)
            (suppliedFields additionalFields) (M.construct (sanitizeMongoKeys query))).1
            (getProp (mergeOptions modelOptions contextOptions) "saveOptions") <;>
          simp [promiseView, settleWith, promiseView_append, promiseView_mergeLoop, hp, invoke_func]
      | some found =>
        cases hf : truthy additionalFields
        · simp [promiseView, settleWith, hp, invoke_func]
        · cases hs : truthy (getProp (mergeOptions modelOptions contextOptions) "saveIfFound")
          · simp [promiseView, settleWith, hp, invoke_func]
          · cases hmod : M.isModified (mergeLoop M (mergeOptions modelOptions contextOptions)
                (forIn additionalFields) found).1
            · simp [hmod, promiseView, settleWith, promiseView_append, promiseView_mergeLoop,
                hp, invoke_func]
            · cases hsv : M.save (mergeLoop M (mergeOptions modelOptions contextOptions)
                  (forIn additionalFields) found).1
                  (getProp (mergeOptions modelOptions contextOptions) "saveOptions") <;>
                simp [hmod, hsv, promiseView, settleWith, promiseView_append,
                  promiseView_mergeLoop, hp, invoke_func]
  · rw [hcall, hcall]
    unfold orchestrate
    cases hfind : M.findOne query with
    | rejected err => simp [storeOperations_cons, Event.isCompletion, hs1, hs2]
    | resolved result =>
      cases result with
      | none =>
        simp only [Option.isSome_none, Bool.false_and, Bool.false_eq_true, if_false,
          Bool.not_false, Bool.not_true, Bool.and_false, merge_step_eq]
        cases hsv : M.save (mergeLoop M (mergeOptions modelOptions contextOptions)
            (suppliedFields additionalFields) (M.construct (sanitizeMongoKeys query))).1
            (getProp (mergeOptions modelOptions contextOptions) "saveOptions") <;>
          simp [storeOperations_cons, storeOperations_append, Event.isCompletion, hs1, hs2]
      | some found =>
        cases hf : truthy additionalFields
        · simp [storeOperations_cons, Event.isCompletion, hs1, hs2]
        · cases hs : truthy (getProp (mergeOptions modelOptions contextOptions) "saveIfFound")
          · simp [storeOperations_cons, Event.isCompletion, hs1, hs2]
          · cases hmod : M.isModified (mergeLoop M (mergeOptions modelOptions contextOptions)
                (forIn additionalFields) found).1
            · simp [hmod, storeOperations_cons, storeOperations_append, Event.isCompletion,
                hs1, hs2]
            · cases hsv : M.save (mergeLoop M (mergeOptions modelOptions contextOptions)
                  (forIn additionalFields) found).1
                  (getProp (mergeOptions modelOptions contextOptions) "saveOptions") <;>
                simp [hmod, hsv, storeOperations_cons, storeOperations_append,
                  Event.isCompletion, hs1, hs2]
  · intro result wasUpdated isNew hstatus
    have hnull : ¬ truthy JsVal.null = true := by simp [truthy]
    simp only [settleWith, deferredCallback, if_neg hnull, hstatus, if_true]


/-- Witness of C15: the scenario of C1 with `status = true`, in promise style. -/
theorem C15_callback_and_promise_agree_witness :
    isFunction nameFields = false ∧
      isFunction (JsVal.obj [("status", JsVal.bool true)]) = false ∧
      truthy JsVal.undefined = false ∧
      (findOrCreate (memCollection (.resolved none) (.resolved ())) .undefined emailQuery
          nameFields (.obj [("status", .bool true)]) (.func 1)).events =
        [Event.findOne emailQuery, Event.construct emailQuery,
          Event.set "name" (.str "A"), Event.isModified, Event.save emailNameDoc (.obj []),
          Event.callback 1 .null (some emailNameDoc) true true] ∧
      (findOrCreate (memCollection (.resolved none) (.resolved ())) .undefined emailQuery
          nameFields (.obj [("status", .bool true)]) .undefined).events =
        [Event.findOne emailQuery, Event.construct emailQuery,
          Event.set "name" (.str "A"), Event.isModified, Event.save emailNameDoc (.obj []),
          Event.resolve (Resolution.envelope (some emailNameDoc) true true)] :=
  ⟨rfl, rfl, rfl, rfl,
    (C15_callback_and_promise_agree (memCollection (.resolved none) (.resolved ())) .undefined
      emailQuery nameFields (.obj [("status", .bool true)]) .undefined 1 rfl rfl rfl).1.trans
      rfl⟩

/-! ## Saving: claims C16 and C17 -/

theorem save_not_mem_mergeLoop {D : Type} (M : Collection D) (options : JsVal) (fields : Props)
    (doc d : D) (s : JsVal) : Event.save d s ∉ (mergeLoop M options fields doc).2 :=
  fun h => Bool.noConfusion (mergeLoop_mem_isSet M options fields doc _ h)

theorem callback_not_mem_mergeLoop {D : Type} (M : Collection D) (options : JsVal)
    (fields : Props) (doc : D) (fn : Nat) (err : JsVal) (result : Option D)
    (wasUpdated isNew : Bool) :
    Event.callback fn err result wasUpdated isNew ∉ (mergeLoop M options fields doc).2 :=
  fun h => Bool.noConfusion (mergeLoop_mem_isSet M options fields doc _ h)

theorem resolve_not_mem_mergeLoop {D : Type} (M : Collection D) (options : JsVal)
    (fields : Props) (doc : D) (value : Resolution D) :
    Event.resolve value ∉ (mergeLoop M options fields doc).2 :=
  fun h => Bool.noConfusion (mergeLoop_mem_isSet M options fields doc _ h)

theorem save_not_mem_invoke {D : Type} (callback options err : JsVal) (result : Option D)
    (wasUpdated isNew : Bool) (d : D) (s : JsVal) :
    Event.save d s ∉ invoke callback options err result wasUpdated isNew := by
  intro h
  rcases mem_invoke _ _ _ _ _ _ _ h with h | h
  · exact Bool.noConfusion h
  · exact Event.noConfusion h

/-- C16: in every run `save` is called at most once, and a document on which it is
called was newly created in this call (`findOne` found none) or answers `true` to
`isModified` after the merge step; a found document that answers `false` after the
merge is not saved. -/
theorem C16_save_only_if_new_or_modified {D : Type} (M : Collection D)
    (query additionalFields options callback : JsVal) :
    countOf Event.isSave (orchestrate M query additionalFields options callback) ≤ 1 ∧
      (∀ doc saveOptions,
        Event.save doc saveOptions ∈ orchestrate M query additionalFields options callback →
        M.findOne query = Settled.resolved none ∨ M.isModified doc = true) ∧
      (∀ found, M.findOne query = Settled.resolved (some found) →
        M.isModified (mergeLoop M options (forIn additionalFields) found).1 = false →
        countOf Event.isSave (orchestrate M query additionalFields options callback) = 0) := by
  have hi := fun err (result : Option D) wasUpdated isNew =>
    (invoke_no_store_operation callback options err result wasUpdated isNew).2.2
  have hm := fun fields (doc : D) => (mergeLoop_sets M options fields doc).2.2.2.2.1
  unfold orchestrate
  cases hfind : M.findOne query with
  | rejected err =>
    simp [countOf_cons, Event.isSave, hi, save_not_mem_invoke]
  | resolved result =>
    cases result with
    | none =>
      simp only [Option.isSome_none, Bool.false_and, Bool.false_eq_true, if_false,
        Bool.not_false, Bool.not_true, Bool.and_false, merge_step_eq]
      cases hsv : M.save (mergeLoop M options (suppliedFields additionalFields)
          (M.construct (sanitizeMongoKeys query))).1 (getProp options "saveOptions") <;>
        simp [countOf_cons, countOf_append, countOf_nil, Event.isSave, hi, hm]
    | some found =>
      cases hf : truthy additionalFields
      · simp [countOf_cons, Event.isSave, hi, save_not_mem_invoke]
      · cases hs : truthy (getProp options "saveIfFound")
        · simp [countOf_cons, Event.isSave, hi, save_not_mem_invoke]
        · cases hmod : M.isModified (mergeLoop M options (forIn additionalFields) found).1
          · simp [hmod, countOf_cons, countOf_append, Event.isSave, hi, hm,
              save_not_mem_invoke, save_not_mem_mergeLoop]
          · cases hsv : M.save (mergeLoop M options (forIn additionalFields) found).1
                (getProp options "saveOptions") <;>
              simp [hmod, hsv, countOf_cons, countOf_append, countOf_nil, Event.isSave, hi, hm,
                save_not_mem_invoke, save_not_mem_mergeLoop]


theorem mergeLoop_mem_isStep {D : Type} (M : Collection D) (options : JsVal) (fields : Props)
    (doc : D) (e : Event D) (h : e ∈ (mergeLoop M options fields doc).2) : e.isStep = true := by
  have := mergeLoop_mem_isSet M options fields doc e h
  cases e <;> simp_all [Event.isSet, Event.isStep]

/-- The two shapes of a run: a report without `save`, made only when `findOne` did
not resolve with no document; or steps, one `save`, and what follows from the way
`save` settles. -/
theorem orchestrate_shape {D : Type} (M : Collection D)
    (query additionalFields options callback : JsVal) :
    (∃ pre err result, (∀ e ∈ pre, Event.isStep e = true) ∧
        M.findOne query ≠ Settled.resolved none ∧
        orchestrate M query additionalFields options callback =
          pre ++ invoke callback options err result false false) ∨
      (∃ pre doc creating, (∀ e ∈ pre, Event.isStep e = true) ∧
        (creating = true ↔ M.findOne query = Settled.resolved none) ∧
        (creating = true ∨ M.isModified doc = true) ∧
        orchestrate M query additionalFields options callback =
          pre ++ Event.save doc (getProp options "saveOptions") ::
            (match M.save doc (getProp options "saveOptions") with
              | .resolved _ => invoke callback options .null (some doc) true creating
              | .rejected reason => [Event.unhandledRejection reason])) := by
  cases hfind : M.findOne query with
  | rejected err =>
    refine Or.inl ⟨[Event.findOne query], err, none, ?_, ?_, ?_⟩
    · intro e he
      simp at he; subst he; rfl
    · intro h; exact Settled.noConfusion h
    · unfold orchestrate
      simp [hfind]
  | resolved result =>
    cases result with
    | none =>
      refine Or.inr ⟨Event.findOne query :: Event.construct (sanitizeMongoKeys query) ::
        ((mergeLoop M options (suppliedFields additionalFields)
          (M.construct (sanitizeMongoKeys query))).2 ++ [Event.isModified]),
        (mergeLoop M options (suppliedFields additionalFields)
          (M.construct (sanitizeMongoKeys query))).1, true, ?_, ?_, Or.inl rfl, ?_⟩
      · intro e he
        simp only [List.mem_cons, List.mem_append, List.mem_singleton, List.not_mem_nil,
          or_false] at he
        rcases he with rfl | rfl | he | rfl
        · rfl
        · rfl
        · exact mergeLoop_mem_isStep _ _ _ _ _ he
        · rfl
      · simp
      · rw [orchestrate_not_found M query additionalFields options callback hfind]
        simp
    | some found =>
      by_cases hshort : truthy additionalFields = false ∨
          truthy (getProp options "saveIfFound") = false
      · refine Or.inl ⟨[Event.findOne query], .null, some found, ?_, ?_, ?_⟩
        · intro e he
          simp at he; subst he; rfl
        · intro h; cases h
        · unfold orchestrate
          rcases hshort with h | h
          · simp [hfind, h]
          · cases hf : truthy additionalFields <;> simp [hfind, h, hf]
      · have hf : truthy additionalFields = true := by
          cases h : truthy additionalFields
          · exact absurd (Or.inl h) hshort
          · rfl
        have hs : truthy (getProp options "saveIfFound") = true := by
          cases h : truthy (getProp options "saveIfFound")
          · exact absurd (Or.inr h) hshort
          · rfl
        have hrun := orchestrate_found_merge M query additionalFields options callback found
          hfind hf hs
        have hpre : ∀ e ∈ Event.findOne query ::
            ((mergeLoop M options (forIn additionalFields) found).2 ++ [Event.isModified]),
            Event.isStep e = true := by
          intro e he
          simp only [List.mem_cons, List.mem_append, List.mem_singleton, List.not_mem_nil,
            or_false] at he
          rcases he with rfl | he | rfl
          · rfl
          · exact mergeLoop_mem_isStep _ _ _ _ _ he
          · rfl
        cases hmod : M.isModified (mergeLoop M options (forIn additionalFields) found).1
        · refine Or.inl ⟨_, .null, some (mergeLoop M options (forIn additionalFields) found).1,
            hpre, ?_, ?_⟩
          · intro h; cases h
          · rw [hrun]
            simp [hmod]
        · refine Or.inr ⟨_, (mergeLoop M options (forIn additionalFields) found).1, false,
            hpre, ?_, Or.inr hmod, ?_⟩
          · simp
          · rw [hrun]
            simp [hmod]


theorem countOf_steps {D : Type} (p : Event D → Bool)
    (hp : ∀ e : Event D, e.isStep = true → p e = false) (pre : List (Event D))
    (hpre : ∀ e ∈ pre, Event.isStep e = true) : countOf p pre = 0 := by
  unfold countOf
  rw [List.length_eq_zero, List.filter_eq_nil_iff]
  intro e he
  rw [hp e (hpre e he)]
  exact Bool.false_ne_true

theorem step_not_save {D : Type} (e : Event D) (h : e.isStep = true) : e.isSave = false := by
  cases e <;> simp_all [Event.isStep, Event.isSave]

theorem step_not_completion {D : Type} (e : Event D) (h : e.isStep = true) :
    e.isCompletion = false := by
  cases e <;> simp_all [Event.isStep, Event.isCompletion]

/-- C17: when a run reaches `save` and `save` rejects with `E`, the rejection is not
routed through the completion channel: no callback is invoked and the promise is
neither resolved nor rejected (the run has no notification at all), and the run ends
with `E` as an unhandled rejection. -/
theorem C17_save_rejection_is_unhandled {D : Type} (M : Collection D)
    (query additionalFields options callback E : JsVal) (doc : D) (saveOptions : JsVal)
    (hreach : Event.save doc saveOptions ∈ orchestrate M query additionalFields options callback)
    (hreject : M.save doc saveOptions = Settled.rejected E) :
    countOf Event.isCompletion (orchestrate M query additionalFields options callback) = 0 ∧
      (orchestrate M query additionalFields options callback).getLast?
        = some (Event.unhandledRejection E) := by
  rcases orchestrate_shape M query additionalFields options callback with
    ⟨pre, err, result, hpre, _, hrun⟩ | ⟨pre, doc', creating, hpre, _, _, hrun⟩
  · rw [hrun] at hreach
    rcases List.mem_append.mp hreach with h | h
    · exact Bool.noConfusion (hpre _ h)
    · exact absurd h (save_not_mem_invoke _ _ _ _ _ _ _ _)
  · rw [hrun] at hreach
    have hsame : doc = doc' ∧ saveOptions = getProp options "saveOptions" := by
      rcases List.mem_append.mp hreach with h | h
      · exact Bool.noConfusion (hpre _ h)
      · rcases List.mem_cons.mp h with h | h
        · injection h with h1 h2
          exact ⟨h1, h2⟩
        · cases hsv : M.save doc' (getProp options "saveOptions") with
          | resolved u =>
            rw [hsv] at h
            exact absurd h (save_not_mem_invoke _ _ _ _ _ _ _ _)
          | rejected r =>
            rw [hsv] at h
            simp at h
    obtain ⟨rfl, rfl⟩ := hsame
    rw [hrun, hreject]
    refine ⟨?_, ?_⟩
    · simp [countOf_append, countOf_cons, countOf_nil, Event.isCompletion,
        countOf_steps Event.isCompletion step_not_completion pre hpre]
    · simp [List.getLast?_append, List.getLast?_cons_cons]

/-- Witness of C17: the scenario of C1 with a `save` that rejects with `"E"`. -/
theorem C17_save_rejection_is_unhandled_witness :
    Event.save emailNameDoc (.obj []) ∈
        orchestrate (memCollection (.resolved none) (.rejected (.str "E"))) emailQuery
          nameFields defaultOptions (.func 1) ∧
      (memCollection (.resolved none) (.rejected (.str "E"))).save emailNameDoc (.obj [])
        = Settled.rejected (.str "E") ∧
      countOf Event.isCompletion
        (orchestrate (memCollection (.resolved none) (.rejected (.str "E"))) emailQuery
          nameFields defaultOptions (.func 1)) = 0 ∧
      (orchestrate (memCollection (.resolved none) (.rejected (.str "E"))) emailQuery
          nameFields defaultOptions (.func 1)).getLast?
        = some (Event.unhandledRejection (.str "E")) :=
  have hreach : Event.save emailNameDoc (.obj []) ∈
      orchestrate (memCollection (.resolved none) (.rejected (.str "E"))) emailQuery
        nameFields defaultOptions (.func 1) := by
    have hrun : orchestrate (memCollection (.resolved none) (.rejected (.str "E"))) emailQuery
        nameFields defaultOptions (.func 1) =
        [Event.findOne emailQuery, Event.construct emailQuery, Event.set "name" (.str "A"),
          Event.isModified, Event.save emailNameDoc (.obj []),
          Event.unhandledRejection (.str "E")] := rfl
    rw [hrun]
    simp
  ⟨hreach, rfl,
    C17_save_rejection_is_unhandled (memCollection (.resolved none) (.rejected (.str "E")))
      emailQuery nameFields defaultOptions (.func 1) (.str "E") emailNameDoc (.obj [])
      hreach rfl⟩

/-! ## Reports: claim C19 -/

/-- C19: in every report that a run makes, to the callback as
`(err, result, wasUpdated, isNew)` or, in promise style with `status`, as the envelope
`{result, wasUpdated, isNew}`: `wasUpdated` is `true` exactly when `save` was called
in the run; `isNew = true` implies `wasUpdated = true`; and `isNew` is `true` exactly
when `findOne` resolved with no document. -/
theorem C19_report_flags {D : Type} (M : Collection D)
    (query additionalFields options callback : JsVal) (fn : Nat) :
    (∀ err result wasUpdated isNew,
        Event.callback fn err result wasUpdated isNew ∈
          orchestrate M query additionalFields options (.func fn) →
        (wasUpdated = true ↔
          countOf Event.isSave (orchestrate M query additionalFields options (.func fn)) = 1) ∧
        (wasUpdated = false ↔
          countOf Event.isSave (orchestrate M query additionalFields options (.func fn)) = 0) ∧
        (isNew = true → wasUpdated = true) ∧
        (isNew = true ↔ M.findOne query = Settled.resolved none)) ∧
      (truthy callback = false →
        ∀ result wasUpdated isNew,
          Event.resolve (Resolution.envelope result wasUpdated isNew) ∈
            orchestrate M query additionalFields options callback →
          (wasUpdated = true ↔
            countOf Event.isSave (orchestrate M query additionalFields options callback) = 1) ∧
          (wasUpdated = false ↔
            countOf Event.isSave (orchestrate M query additionalFields options callback) = 0) ∧
          (isNew = true → wasUpdated = true) ∧
          (isNew = true ↔ M.findOne query = Settled.resolved none)) := by
  have key : ∀ (cb : JsVal) (e : Event D) (wasUpdated isNew : Bool),
      e.isCompletion = true →
      (∀ err result w n, e ∈ invoke cb options err result w n → wasUpdated = w ∧ isNew = n) →
      e ∈ orchestrate M query additionalFields options cb →
      (wasUpdated = true ↔
          countOf Event.isSave (orchestrate M query additionalFields options cb) = 1) ∧
        (wasUpdated = false ↔
          countOf Event.isSave (orchestrate M query additionalFields options cb) = 0) ∧
        (isNew = true → wasUpdated = true) ∧
        (isNew = true ↔ M.findOne query = Settled.resolved none) := by
    intro cb e wasUpdated isNew hcomp hargs hmem
    rcases orchestrate_shape M query additionalFields options cb with
      ⟨pre, err, result, hpre, hnot, hrun⟩ | ⟨pre, doc, creating, hpre, hcr, _, hrun⟩
    · have hcount : countOf Event.isSave (orchestrate M query additionalFields options cb) = 0 := by
        rw [hrun, countOf_append, countOf_steps Event.isSave step_not_save pre hpre,
          (invoke_no_store_operation cb options err result false false).2.2]
      rw [hrun] at hmem
      rcases List.mem_append.mp hmem with h | h
      · rw [step_not_completion e (hpre e h)] at hcomp
        exact Bool.noConfusion hcomp
      · obtain ⟨rfl, rfl⟩ := hargs _ _ _ _ h
        rw [hcount]
        simp [hnot]
    · rw [hrun] at hmem
      rcases List.mem_append.mp hmem with h | h
      · rw [step_not_completion e (hpre e h)] at hcomp
        exact Bool.noConfusion hcomp
      · rcases List.mem_cons.mp h with h | h
        · subst h
          exact Bool.noConfusion hcomp
        · cases hsv : M.save doc (getProp options "saveOptions") with
          | resolved u =>
            rw [hsv] at h
            have hcount :
                countOf Event.isSave (orchestrate M query additionalFields options cb) = 1 := by
              rw [hrun, hsv, countOf_append, countOf_cons,
                countOf_steps Event.isSave step_not_save pre hpre,
                (invoke_no_store_operation cb options .null (some doc) true creating).2.2]
              rfl
            obtain ⟨rfl, rfl⟩ := hargs _ _ _ _ h
            rw [hcount]
            simp [hcr]
          | rejected r =>
            rw [hsv] at h
            simp at h
            subst h
            exact Bool.noConfusion hcomp
  refine ⟨?_, ?_⟩
  · intro err result wasUpdated isNew hmem
    refine key (.func fn) (Event.callback fn err result wasUpdated isNew) wasUpdated isNew
      rfl ?_ hmem
    intro err' result' w n h
    rw [invoke_func] at h
    simp at h
    exact ⟨h.2.2.1, h.2.2.2⟩
  · intro hcb result wasUpdated isNew hmem
    refine key callback (Event.resolve (Resolution.envelope result wasUpdated isNew))
      wasUpdated isNew rfl ?_ hmem
    intro err' result' w n h
    rw [invoke_falsy _ _ _ _ _ _ hcb] at h
    unfold deferredCallback at h
    split at h
    · simp at h
    · split at h
      · simp at h
        exact ⟨h.2.1, h.2.2⟩
      · simp at h


/-! ## Totality of the sanitizer: claim C18 -/

theorem emptyPlainChecked_ok (v : JsVal) :
    emptyPlainChecked v = .ok (isObject v && decide (objectKeysLength v < 1)) := by
  cases v <;> rfl

theorem assignKey_protoIsFunction (t : Target) (k : String) (v : JsVal)
    (ht : t.protoIsFunction = false) (hv : ¬ (k = "__proto__" ∧ isFunction v = true)) :
    (assignKey t k v).protoIsFunction = false := by
  unfold assignKey
  split
  · rename_i hcond
    have hk : k = "__proto__" := by
      simp only [Bool.and_eq_true, beq_iff_eq] at hcond
      exact hcond.1.1
    have hnf : isFunction v = false := by
      cases h : isFunction v
      · rfl
      · exact absurd ⟨hk, h⟩ hv
    split
    · cases v <;> simp_all [Target.protoIsFunction, isFunction]
    · exact ht
  · exact ht

theorem assignKeyChecked_ok (t : Target) (k : String) (v : JsVal)
    (ht : t.protoIsFunction = false) : assignKeyChecked t k v = .ok (assignKey t k v) := by
  unfold assignKeyChecked
  simp [ht]

/-- The loop with errors returns what the loop builds, when the recursive calls
return and no function becomes the prototype. -/
theorem sanitizeLoopChecked_ok (recur : JsVal → Except JsVal JsVal) (l : Props) (t : Target)
    (hrec : ∀ p ∈ l, recur p.2 = .ok (sanitizeMongoKeys p.2))
    (hfun : ∀ p ∈ l, ¬ (p.1 = "__proto__" ∧ isFunction p.2 = true))
    (ht : t.protoIsFunction = false) :
    sanitizeLoopChecked recur l t = .ok (sanitizeProps l t) := by
  induction l generalizing t with
  | nil => rfl
  | cons p rest ih =>
    obtain ⟨k, v⟩ := p
    have hrest := fun t' ht' => ih t' (fun p hp => hrec p (List.mem_cons_of_mem _ hp))
      (fun p hp => hfun p (List.mem_cons_of_mem _ hp)) ht'
    have hv := hrec (k, v) (List.mem_cons_self _ _)
    have hnext := assignKey_protoIsFunction t k v ht (hfun (k, v) (List.mem_cons_self _ _))
    simp only at hv
    rw [sanitizeLoopChecked, sanitizeProps, hv]
    simp only [emptyPlainChecked_ok, assignKeyChecked_ok t k v ht]
    cases startsWithDollar k
    · cases (isObject (sanitizeMongoKeys v) &&
        decide (objectKeysLength (sanitizeMongoKeys v) < 1))
      · simp [hrest _ hnext]
      · simp [hrest _ ht]
    · simp [hrest _ ht]

theorem callDepthElems_eq (xs : List JsVal) (i : Nat) :
    callDepthElems xs = callDepthProps (indexed xs i) := by
  induction xs generalizing i with
  | nil => rfl
  | cons x rest ih => rw [callDepthElems, indexed, callDepthProps, ih (i + 1)]

theorem hasFunctionProtoElems_eq (xs : List JsVal) (i : Nat) :
    hasFunctionProtoElems xs i = hasFunctionProtoProps (indexed xs i) := by
  induction xs generalizing i with
  | nil => rfl
  | cons x rest ih => rw [hasFunctionProtoElems, indexed, hasFunctionProtoProps, ih (i + 1)]

/-- A value that the loop walks is one call deeper than its deepest property. -/
theorem container_facts (q : JsVal) (hpass : passesThrough q = false) :
    callDepth q = callDepthProps (forIn q) + 1 ∧
      hasFunctionProto q = hasFunctionProtoProps (forIn q) := by
  cases q <;> simp [passesThrough, typeofObject, instanceofDate, isNull] at hpass
  · exact ⟨by rw [callDepth, forIn, callDepthElems_eq _ 0],
      by rw [hasFunctionProto, forIn, hasFunctionProtoElems_eq]⟩
  · exact ⟨by rw [callDepth, forIn], by rw [hasFunctionProto, forIn]⟩
  · exact ⟨by rw [callDepth, forIn], by rw [hasFunctionProto, forIn]⟩

theorem props_facts (ps : Props) (p : String × JsVal) (hp : p ∈ ps) :
    callDepth p.2 ≤ callDepthProps ps ∧
      (hasFunctionProtoProps ps = false →
        hasFunctionProto p.2 = false ∧ ¬ (p.1 = "__proto__" ∧ isFunction p.2 = true)) := by
  induction ps with
  | nil => simp at hp
  | cons q rest ih =>
    obtain ⟨k, v⟩ := q
    rw [callDepthProps, hasFunctionProtoProps]
    rcases List.mem_cons.mp hp with rfl | hp
    · refine ⟨Nat.le_max_left _ _, ?_⟩
      intro h
      simp only [Bool.or_eq_false_iff, Bool.and_eq_false_imp, beq_iff_eq] at h
      refine ⟨h.1.2, ?_⟩
      rintro ⟨hk, hf⟩
      have := h.1.1 hk
      rw [hf] at this
      exact Bool.noConfusion this
    · obtain ⟨h1, h2⟩ := ih hp
      refine ⟨Nat.le_trans h1 (Nat.le_max_right _ _), ?_⟩
      intro h
      simp only [Bool.or_eq_false_iff] at h
      exact h2 h.2

theorem callDepth_pos (q : JsVal) : 1 ≤ callDepth q := by
  cases q <;> simp [callDepth]

/-- With room for the calls that the value asks for, and no function that becomes a
prototype, the sanitizer with errors returns, and returns the value of
`sanitizeMongoKeys`. -/
theorem sanitizeChecked_ok (frames : Nat) :
    ∀ q : JsVal, callDepth q ≤ frames → hasFunctionProto q = false →
      sanitizeChecked frames q = .ok (sanitizeMongoKeys q) := by
  induction frames with
  | zero =>
    intro q hd _
    have := callDepth_pos q
    omega
  | succ n ih =>
    intro q hd hf
    have hcase := sanitize_cases q
    rw [sanitizeChecked]
    cases hpass : passesThrough q
    · rw [hpass] at hcase
      simp only [Bool.false_eq_true, if_false] at hcase ⊢
      obtain ⟨hdepth, hfp⟩ := container_facts q hpass
      rw [hfp] at hf
      rw [sanitizeLoopChecked_ok (sanitizeChecked n) (forIn q) Target.empty
        (fun p hp => ih p.2 (by have := (props_facts _ p hp).1; omega)
          ((props_facts _ p hp).2 hf).1)
        (fun p hp => ((props_facts _ p hp).2 hf).2) rfl, hcase]
    · rw [hpass] at hcase
      simp only [if_true] at hcase ⊢
      rw [hcase]

theorem callDepth_nested (n : Nat) : callDepth (nested n) = n + 1 := by
  induction n with
  | zero => rfl
  | succ n ih => rw [nested, callDepth, callDepthProps, callDepthProps, ih]; simp

/-- A mapping nested as deep as the stack has room for calls overflows the stack: it
asks for one call more. -/
theorem nested_overflows (n : Nat) : sanitizeChecked n (nested n) = .error rangeError := by
  induction n with
  | zero => rfl
  | succ n ih =>
    rw [nested, sanitizeChecked]
    simp [passesThrough, typeofObject, instanceofDate, isNull, forIn, sanitizeLoopChecked,
      startsWithDollar, ih]

/-- C18, counterexample: on a stack with room for 10000 nested calls, the finite
query `{a: {a: ... {a: 0}}}` of 10000 nested mappings asks for 10001 calls and
`sanitizeMongoKeys` throws a `RangeError`; with room for 2 calls the same happens
for `{a: {a: 0}}`. And the query with an own key `__proto__` whose value is a
function, followed by the key `name`, throws a `TypeError` at the assignment of
`name`, which the function holds read-only. -/
theorem C18_counterexample_deep_value_overflows :
    callDepth (nested 10000) = 10001 ∧
      sanitizeChecked 10000 (nested 10000) = .error rangeError ∧
      sanitizeChecked 2 (.obj [("a", .obj [("a", .num 0)])]) = .error rangeError ∧
      sanitizeChecked 10000 (.obj [("__proto__", .func 1), ("name", .str "a")])
        = .error typeError :=
  ⟨callDepth_nested 10000, nested_overflows 10000, rfl, by
    rw [sanitizeChecked]
    simp [passesThrough, typeofObject, instanceofDate, isNull, forIn, sanitizeLoopChecked,
      startsWithDollar, sanitizeChecked, emptyPlainChecked, isObjectChecked, prototypeIsPlain,
      assignKeyChecked, assignKey, canBePrototype, isFunction, Target.protoIsFunction,
      Target.empty, hasKey, readOnlyOfFunction, reachesProtoSetter]⟩

/-- C18, amended: for every query value whose nesting asks for no more calls than the
stack has room for, and which holds no function as the value of a key `__proto__`,
`sanitizeMongoKeys` terminates and returns a value without raising an error. -/
theorem C18_sanitize_total (frames : Nat) (q : JsVal) (hdepth : callDepth q ≤ frames)
    (hfunction : hasFunctionProto q = false) :
    sanitizeChecked frames q = .ok (sanitizeMongoKeys q) :=
  sanitizeChecked_ok frames q hdepth hfunction

/-- Witness of C18: a mapping with an empty-string key, nested arrays and `null` and
`undefined` leaves, on a stack with room for 10000 calls. -/
theorem C18_sanitize_total_witness :
    callDepth leavesQuery ≤ 10000 ∧
      hasFunctionProto leavesQuery = false ∧
      sanitizeChecked 10000 leavesQuery = .ok leavesQuery :=
  ⟨by decide, rfl,
    (C18_sanitize_total 10000 leavesQuery (by decide) rfl).trans (congrArg Except.ok rfl)⟩

/-! ## Queries without operators: claim C20 -/

theorem length_foldl_setProp_ge (l acc : Props) :
    acc.length ≤ (l.foldl (fun a p => setProp a p.1 p.2) acc).length := by
  induction l generalizing acc with
  | nil => exact Nat.le_refl _
  | cons p rest ih => exact Nat.le_trans (length_setProp_ge acc p.1 p.2).1 (ih _)

theorem finish_ne_empty (t : Target) (h : t.own ≠ []) : t.finish ≠ .obj [] := by
  unfold Target.finish
  cases t.proto with
  | none =>
    intro e
    injection e with e
    exact h e
  | some p =>
    intro e
    cases e

/-- The loop keeps a first property whose key is neither operator-prefixed nor
`__proto__` and whose sanitized value is not the empty plain mapping: the object
built has an own property, and is not the empty plain mapping. -/
theorem sanitizeProps_cons_ne_empty (k : String) (v : JsVal) (rest : Props)
    (hk : startsWithDollar k = false) (hp : k ≠ "__proto__")
    (hv : sanitizeMongoKeys v ≠ .obj []) :
    (sanitizeProps ((k, v) :: rest) Target.empty).finish ≠ .obj [] := by
  apply finish_ne_empty
  have hkeep : kept k v = true := (kept_iff k v).mpr ⟨hk, hv⟩
  rw [sanitizeProps_eq_foldl, List.filter_cons]
  simp only [hkeep, if_true, List.foldl_cons]
  intro h
  have h1 := length_foldl_assignKey_own_ge
    (List.filter (fun p => kept p.1 p.2) rest) (assignKey Target.empty k v)
  rw [h, List.length_nil, assignKey_of_ne _ _ _ hp] at h1
  have h2 := (length_setProp_ge Target.empty.own k v).2
  simp only at h1
  omega

/-- A value without operator-prefixed key, without key `__proto__` and without empty
object at any depth does not sanitize to the empty plain mapping. -/
theorem sanitize_ne_empty : ∀ v : JsVal, hasDollarKey v = false → hasProtoKey v = false →
    hasEmptyObject v = false → sanitizeMongoKeys v ≠ .obj []
  | .obj [], _, _, he => by simp [hasEmptyObject] at he
  | .arr [], _, _, he => by simp [hasEmptyObject] at he
  | .inst [], _, _, he => by simp [hasEmptyObject] at he
  | .obj ((k, v) :: rest), hd, hp, he => by
    simp only [hasDollarKey, hasDollarKeyProps, Bool.or_eq_false_iff] at hd
    simp only [hasProtoKey, hasProtoKeyProps, Bool.or_eq_false_iff, beq_eq_false_iff_ne,
      ne_eq] at hp
    simp only [hasEmptyObject, hasEmptyObjectProps, Bool.or_eq_false_iff] at he
    have ih := sanitize_ne_empty v hd.1.2 hp.1.2 he.1
    rw [sanitizeMongoKeys]
    exact sanitizeProps_cons_ne_empty k v rest hd.1.1 hp.1.1 ih
  | .inst ((k, v) :: rest), hd, hp, he => by
    simp only [hasDollarKey, hasDollarKeyProps, Bool.or_eq_false_iff] at hd
    simp only [hasProtoKey, hasProtoKeyProps, Bool.or_eq_false_iff, beq_eq_false_iff_ne,
      ne_eq] at hp
    simp only [hasEmptyObject, hasEmptyObjectProps, Bool.or_eq_false_iff] at he
    have ih := sanitize_ne_empty v hd.1.2 hp.1.2 he.1
    rw [sanitizeMongoKeys]
    exact sanitizeProps_cons_ne_empty k v rest hd.1.1 hp.1.1 ih
  | .arr (v :: rest), hd, hp, he => by
    simp only [hasDollarKey, hasDollarKeyElems, Bool.or_eq_false_iff] at hd
    simp only [hasProtoKey, hasProtoKeyElems, Bool.or_eq_false_iff] at hp
    simp only [hasEmptyObject, hasEmptyObjectElems, Bool.or_eq_false_iff] at he
    have ih := sanitize_ne_empty v hd.1 hp.1 he.1
    rw [sanitizeMongoKeys, sanitizeElems_eq_props, indexed]
    exact sanitizeProps_cons_ne_empty _ v _ (by decide) (by decide) ih
  | .undefined, _, _, _ => by rw [sanitizeMongoKeys]; intro h; cases h
  | .null, _, _, _ => by rw [sanitizeMongoKeys]; intro h; cases h
  | .bool _, _, _, _ => by rw [sanitizeMongoKeys]; intro h; cases h
  | .num _, _, _, _ => by rw [sanitizeMongoKeys]; intro h; cases h
  | .str _, _, _, _ => by rw [sanitizeMongoKeys]; intro h; cases h
  | .date _, _, _, _ => by rw [sanitizeMongoKeys]; intro h; cases h
  | .func _, _, _, _ => by rw [sanitizeMongoKeys]; intro h; cases h

theorem kept_of_clean (ps : Props) (hd : hasDollarKeyProps ps = false)
    (hp : hasProtoKeyProps ps = false) (he : hasEmptyObjectProps ps = false) :
    ∀ p ∈ ps, kept p.1 p.2 = true ∧ p.1 ≠ "__proto__" := by
  induction ps with
  | nil => intro p hp; simp at hp
  | cons q rest ih =>
    obtain ⟨k, v⟩ := q
    simp only [hasDollarKeyProps, Bool.or_eq_false_iff] at hd
    simp only [hasProtoKeyProps, Bool.or_eq_false_iff, beq_eq_false_iff_ne, ne_eq] at hp
    simp only [hasEmptyObjectProps, Bool.or_eq_false_iff] at he
    intro p hmem
    rcases List.mem_cons.mp hmem with rfl | hmem
    · exact ⟨(kept_iff _ _).mpr ⟨hd.1.1, sanitize_ne_empty v hd.1.2 hp.1.2 he.1⟩, hp.1.1⟩
    · exact ih hd.2 hp.2 he.2 p hmem

/-- C20, counterexample: three queries without operator-prefixed key, empty mapping
or empty array that are not returned unchanged. `{name: /abc/}` sanitizes to `{}`: a
regular expression has no enumerable property, so the loop over it builds `{}` and
the key is dropped. `{a: {"__proto__": 5}}` sanitizes to `{}`: the assignment of
`__proto__` adds no own key, so the nested mapping sanitizes to `{}` and `a` is
dropped. `{"__proto__": {a: 1}}` sanitizes to an object without own key whose
prototype is `{a: 1}`. -/
theorem C20_counterexample_values_are_dropped :
    hasDollarKey (.obj [("name", regExp)]) = false ∧
      hasEmptyCollection (.obj [("name", regExp)]) = false ∧
      sanitizeMongoKeys (.obj [("name", regExp)]) = .obj [] ∧
      sanitizeMongoKeys (.obj [("name", regExp)]) ≠ .obj [("name", regExp)] ∧
      hasDollarKey (.obj [("a", .obj [("__proto__", .num 5)])]) = false ∧
      hasEmptyCollection (.obj [("a", .obj [("__proto__", .num 5)])]) = false ∧
      sanitizeMongoKeys (.obj [("a", .obj [("__proto__", .num 5)])]) = .obj [] ∧
      hasDollarKey (.obj [("__proto__", .obj [("a", .num 1)])]) = false ∧
      hasEmptyCollection (.obj [("__proto__", .obj [("a", .num 1)])]) = false ∧
      sanitizeMongoKeys (.obj [("__proto__", .obj [("a", .num 1)])]) = .inst [("a", .num 1)] := by
  refine ⟨rfl, rfl, rfl, ?_, rfl, rfl, rfl, rfl, rfl, rfl⟩
  intro h
  have h2 : JsVal.obj [] = JsVal.obj [("name", regExp)] := h
  cases h2

/-- C20, amended: for every query mapping (a well-formed object) that holds, at any
depth, no operator-prefixed key, no key `__proto__` and no object without enumerable
property (no `{}`, no `[]`, and no other non-date object without enumerable property,
such as a regular expression), `sanitizeMongoKeys` returns a mapping structurally
equal to the query. -/
theorem C20_operator_free_query_unchanged (ps : Props) (hwf : keysNodup ps)
    (hdollar : hasDollarKey (.obj ps) = false) (hproto : hasProtoKey (.obj ps) = false)
    (hempty : hasEmptyObject (.obj ps) = false) :
    sanitizeMongoKeys (.obj ps) = .obj ps := by
  cases ps with
  | nil => rfl
  | cons q rest =>
    rw [hasDollarKey] at hdollar
    rw [hasProtoKey] at hproto
    rw [hasEmptyObject] at hempty
    have hall := kept_of_clean _ hdollar hproto hempty
    have hno : "__proto__" ∉ keysOf (q :: rest) := by
      intro hk
      obtain ⟨p, hp, hp1⟩ := List.mem_map.mp hk
      exact (hall p hp).2 hp1
    rw [sanitizeMongoKeys, sanitize_finish_plain _ hno, sanitizeProps_own_eq_filter _ hwf]
    congr 1
    apply List.filter_eq_self.mpr
    intro p hp
    have := hall p hp
    simp [this.1, this.2]

/-- Witness of C20: `{email: "a@x.com", tags: [1, 2], address: {city: "X"}}`. -/
theorem C20_operator_free_query_unchanged_witness :
    keysNodup [("email", JsVal.str "a@x.com"), ("tags", JsVal.arr [.num 1, .num 2]),
        ("address", JsVal.obj [("city", .str "X")])] ∧
      hasDollarKey (.obj [("email", JsVal.str "a@x.com"), ("tags", JsVal.arr [.num 1, .num 2]),
        ("address", JsVal.obj [("city", .str "X")])]) = false ∧
      hasProtoKey (.obj [("email", JsVal.str "a@x.com"), ("tags", JsVal.arr [.num 1, .num 2]),
        ("address", JsVal.obj [("city", .str "X")])]) = false ∧
      hasEmptyObject (.obj [("email", JsVal.str "a@x.com"), ("tags", JsVal.arr [.num 1, .num 2]),
        ("address", JsVal.obj [("city", .str "X")])]) = false ∧
      sanitizeMongoKeys (.obj [("email", JsVal.str "a@x.com"),
          ("tags", JsVal.arr [.num 1, .num 2]), ("address", JsVal.obj [("city", .str "X")])])
        = .obj [("email", JsVal.str "a@x.com"), ("tags", JsVal.arr [.num 1, .num 2]),
          ("address", JsVal.obj [("city", .str "X")])] :=
  ⟨by simp [keysNodup, keysOf], rfl, rfl, rfl,
    C20_operator_free_query_unchanged _ (by simp [keysNodup, keysOf]) rfl rfl rfl⟩


end FindOrCreate
